import Mathlib

/-!
Verification development for the sqlite-cdc repository: a shallow embedding of
the change-data-capture core (models, audit reader, capture connection, sync
engine, initial sync, SQL classifier) together with theorems settling the
specification claims.

Conventions of the embedding:
* Python `datetime` values are opaque integers (they are only carried around).
* JSON object payloads (`Dict[str, Any]`) are association lists
  `List (String × String)`; their contents are carried, never inspected,
  exactly as in the source.
* Python exceptions are `Except String`; catching is explicit.
* Machine integers are `Int` (SQLite integers are 64-bit, but no arithmetic
  in the modelled code can overflow 64 bits, so no modular reduction arises).
-/

namespace SqliteCdc

/-! ## Basic value model -/

/-- `models/event.py` `OperationType`: the three captured DML operations. -/
inductive OperationType where
  | INSERT
  | UPDATE
  | DELETE
deriving DecidableEq, Repr

/-- A JSON object payload (`Dict[str, Any]` in the source): field name to
(opaque) value.  The CDC core only moves these dictionaries around. -/
abbrev RowData := List (String × String)

/-- A primary-key value as it appears on `ChangeEvent.row_id`
(`Union[int, str]` in the source). -/
inductive RowId where
  | intId (i : Int)
  | strId (s : String)
deriving DecidableEq, Repr

/-! ## Decimal strings: models of Python `str(int)` and `int(str)` -/

/-- The ASCII digit character for `n < 10`. -/
def digitChar : Nat → Char
  | 0 => '0'
  | 1 => '1'
  | 2 => '2'
  | 3 => '3'
  | 4 => '4'
  | 5 => '5'
  | 6 => '6'
  | 7 => '7'
  | 8 => '8'
  | 9 => '9'
  | _ + 10 => '0'

/-- Fuel-based digit expansion (structural recursion so that terms reduce
definitionally); `natDecDigits` supplies enough fuel. -/
def natDecDigitsAux : Nat → Nat → List Char
  | 0, _ => []
  | fuel + 1, n =>
    if n < 10 then [digitChar n]
    else natDecDigitsAux fuel (n / 10) ++ [digitChar (n % 10)]

/-- Decimal digit list of a natural number (most significant first),
as produced by Python `str`. -/
def natDecDigits (n : Nat) : List Char := natDecDigitsAux (n + 1) n

/-- Model of Python `str` on an `int`: decimal digits, `-` sign for
negatives. -/
def pyStrInt (i : Int) : String :=
  if i < 0 then String.mk ('-' :: natDecDigits i.natAbs)
  else String.mk (natDecDigits i.natAbs)

/-- Model of Python `str` / f-string interpolation on a `Union[int, str]`
row-id value. -/
def pyStrRowId : RowId → String
  | .intId i => pyStrInt i
  | .strId s => s

/-- The characters Python `str.strip()` removes (ASCII whitespace;
codes 11 and 12 are vertical tab and form feed). -/
def isPyWS (c : Char) : Bool :=
  c = ' ' || c = '\t' || c = '\n' || c = '\r' || c.toNat = 11 || c.toNat = 12

/-- ASCII decimal digit test. -/
def isDigitC (c : Char) : Bool := 48 ≤ c.toNat && c.toNat ≤ 57

/-- Numeric value of an ASCII digit character. -/
def digitVal (c : Char) : Nat := c.toNat - 48

/-- Model of Python `str.strip()` (on ASCII input): drop leading and trailing
whitespace. -/
def stripWS (l : List Char) : List Char :=
  ((l.dropWhile isPyWS).reverse.dropWhile isPyWS).reverse

/-- Continuation of the Python decimal-integer-literal scan, entered right
after a digit: digits with single underscores allowed between digits.
Returns the remaining digits with underscores removed. -/
def pyDigitsAux : List Char → Option (List Char)
  | [] => some []
  | c :: cs =>
    if c = '_' then
      match cs with
      | [] => none
      | d :: cs2 =>
        if isDigitC d then (pyDigitsAux cs2).map (fun r => d :: r) else none
    else if isDigitC c then (pyDigitsAux cs).map (fun r => c :: r)
    else none

/-- The Python decimal-integer-literal digit run: nonempty, starts with a
digit, single underscores only between digits.  Returns the digit list with
underscores removed, or `none` when the text is not a valid literal. -/
def pyDigits : List Char → Option (List Char)
  | [] => none
  | c :: cs => if isDigitC c then (pyDigitsAux cs).map (fun r => c :: r) else none

/-- Value of a (most-significant-first) digit list. -/
def digitsToNat (l : List Char) : Nat := l.foldl (fun a c => 10 * a + digitVal c) 0

/-- Model of the Python builtin `int(s)` on an ASCII decimal string: strip
whitespace, optional sign, digit run with underscores between digits;
`none` models the `ValueError`. -/
def pyInt (s : String) : Option Int :=
  match stripWS s.data with
  | [] => none
  | c :: rest =>
    if c = '+' then (pyDigits rest).map (fun d => (digitsToNat d : Int))
    else if c = '-' then (pyDigits rest).map (fun d => -(digitsToNat d : Int))
    else (pyDigits (c :: rest)).map (fun d => (digitsToNat d : Int))

/-! ### Round-trip facts about the decimal models -/

theorem isDigitC_digitChar (n : Nat) : isDigitC (digitChar n) = true := by
  rcases n with _|_|_|_|_|_|_|_|_|_|n <;> simp [digitChar] <;> decide

theorem natDecDigitsAux_all_digit (fuel n : Nat) :
    ∀ c ∈ natDecDigitsAux fuel n, isDigitC c = true := by
  induction fuel generalizing n with
  | zero => simp [natDecDigitsAux]
  | succ fuel ih =>
    intro c hc
    rw [natDecDigitsAux] at hc
    by_cases h : n < 10
    · simp [h] at hc
      subst hc
      exact isDigitC_digitChar n
    · simp [h] at hc
      rcases hc with hc | hc
      · exact ih (n / 10) c hc
      · subst hc
        exact isDigitC_digitChar (n % 10)

theorem natDecDigits_all_digit (n : Nat) : ∀ c ∈ natDecDigits n, isDigitC c = true :=
  natDecDigitsAux_all_digit (n + 1) n

theorem natDecDigits_ne_nil (n : Nat) : natDecDigits n ≠ [] := by
  rw [natDecDigits, natDecDigitsAux]
  by_cases h : n < 10 <;> simp [h]

theorem digitVal_digitChar (n : Nat) (h : n < 10) : digitVal (digitChar n) = n := by
  interval_cases n <;> decide

theorem digitsToNat_append (l : List Char) (c : Char) :
    digitsToNat (l ++ [c]) = 10 * digitsToNat l + digitVal c := by
  simp [digitsToNat, List.foldl_append]

theorem digitsToNat_natDecDigitsAux (fuel n : Nat) (hfn : n < fuel) :
    digitsToNat (natDecDigitsAux fuel n) = n := by
  induction fuel generalizing n with
  | zero => omega
  | succ fuel ih =>
    rw [natDecDigitsAux]
    by_cases h : n < 10
    · simp [h, digitsToNat, digitVal_digitChar n h]
    · simp only [h, if_false, ite_false]
      rw [digitsToNat_append, ih (n / 10) (by omega),
        digitVal_digitChar (n % 10) (Nat.mod_lt n (by omega))]
      omega

theorem digitsToNat_natDecDigits (n : Nat) : digitsToNat (natDecDigits n) = n :=
  digitsToNat_natDecDigitsAux (n + 1) n (by omega)

theorem pyDigitsAux_of_all_digit (l : List Char) (h : ∀ c ∈ l, isDigitC c = true) :
    pyDigitsAux l = some l := by
  induction l with
  | nil => rfl
  | cons c cs ih =>
    have hc : isDigitC c = true := h c (by simp)
    have hcu : c ≠ '_' := by
      intro he
      subst he
      exact absurd hc (by decide)
    rw [pyDigitsAux.eq_def]
    simp [hcu, hc, ih (fun x hx => h x (by simp [hx]))]

theorem pyDigits_of_all_digit (l : List Char) (hne : l ≠ []) (h : ∀ c ∈ l, isDigitC c = true) :
    pyDigits l = some l := by
  cases l with
  | nil => exact absurd rfl hne
  | cons c cs =>
    rw [pyDigits]
    simp [h c (by simp), pyDigitsAux_of_all_digit cs (fun x hx => h x (by simp [hx]))]

theorem isPyWS_false_of_digit (c : Char) (h : isDigitC c = true) : isPyWS c = false := by
  simp only [isDigitC, Bool.and_eq_true, decide_eq_true_eq] at h
  have h32 : c ≠ ' ' := fun he => by rw [he] at h; revert h; decide
  have h9 : c ≠ '\t' := fun he => by rw [he] at h; revert h; decide
  have h10 : c ≠ '\n' := fun he => by rw [he] at h; revert h; decide
  have h13 : c ≠ '\r' := fun he => by rw [he] at h; revert h; decide
  have h11 : c.toNat ≠ 11 := by omega
  have h12 : c.toNat ≠ 12 := by omega
  simp [isPyWS, h32, h9, h10, h13, h11, h12]

theorem dropWhile_eq_self_of_all {p : Char → Bool} (l : List Char)
    (h : ∀ c ∈ l, p c = false) : l.dropWhile p = l := by
  cases l with
  | nil => rfl
  | cons c cs => simp [List.dropWhile_cons, h c (by simp)]

theorem stripWS_eq_self_of_all (l : List Char) (h : ∀ c ∈ l, isPyWS c = false) :
    stripWS l = l := by
  unfold stripWS
  rw [dropWhile_eq_self_of_all l h,
    dropWhile_eq_self_of_all l.reverse (fun c hc => h c (List.mem_reverse.mp hc)),
    List.reverse_reverse]

theorem data_mk (l : List Char) : (String.mk l).data = l := rfl

theorem pyInt_pyStrInt (i : Int) : pyInt (pyStrInt i) = some i := by
  have hall := natDecDigits_all_digit i.natAbs
  have hnws : ∀ c ∈ natDecDigits i.natAbs, isPyWS c = false :=
    fun c hc => isPyWS_false_of_digit c (hall c hc)
  have hpd := pyDigits_of_all_digit (natDecDigits i.natAbs) (natDecDigits_ne_nil _) hall
  by_cases h : i < 0
  · have hs : pyStrInt i = String.mk ('-' :: natDecDigits i.natAbs) := by
      simp [pyStrInt, h]
    have hstrip : stripWS ('-' :: natDecDigits i.natAbs) = '-' :: natDecDigits i.natAbs := by
      apply stripWS_eq_self_of_all
      intro c hc
      rcases List.mem_cons.mp hc with hc | hc
      · subst hc; decide
      · exact hnws c hc
    rw [hs]
    unfold pyInt
    rw [data_mk, hstrip]
    simp only [reduceIte, hpd, Option.map_some]
    rw [if_neg (show ¬(('-' : Char) = '+') by decide)]
    simp only [Option.map_some', digitsToNat_natDecDigits, Option.some.injEq]
    omega
  · have hs : pyStrInt i = String.mk (natDecDigits i.natAbs) := by
      simp [pyStrInt, h]
    have hstrip : stripWS (natDecDigits i.natAbs) = natDecDigits i.natAbs :=
      stripWS_eq_self_of_all _ hnws
    obtain ⟨c, cs, hd, hdc⟩ : ∃ c cs, natDecDigits i.natAbs = c :: cs ∧ isDigitC c = true := by
      cases hd : natDecDigits i.natAbs with
      | nil => exact absurd hd (natDecDigits_ne_nil _)
      | cons c cs => exact ⟨c, cs, rfl, hall c (by rw [hd]; simp)⟩
    have hcp : c ≠ '+' := by
      intro he; subst he; exact absurd hdc (by decide)
    have hcm : c ≠ '-' := by
      intro he; subst he; exact absurd hdc (by decide)
    rw [hs]
    unfold pyInt
    rw [data_mk, hstrip, hd]
    simp only [hcp, hcm, if_false, ite_false, ← hd, hpd, Option.map_some',
      digitsToNat_natDecDigits, Option.some.injEq]
    omega

/-! ## Change events and audit-log records (`models/event.py`, `models/audit.py`) -/

/-- `models/event.py` `ChangeEvent`: the in-flight unit of change.
`timestamp` is an opaque stand-in for the `datetime` field. -/
structure ChangeEvent where
  event_id : String
  audit_id : Int
  timestamp : Int
  operation : OperationType
  table_name : String
  row_id : RowId
  before_data : Option RowData
  after_data : Option RowData
deriving DecidableEq, Repr

/-- The `event_id` format enforced by `ChangeEvent.validate_event_id`:
the f-string `"{audit_id}:{table_name}:{row_id}"`. -/
def eventIdOf (auditId : Int) (table : String) (rowId : RowId) : String :=
  pyStrInt auditId ++ ":" ++ table ++ ":" ++ pyStrRowId rowId

/-- The pydantic validators of `ChangeEvent`: the `ge=0` field constraint on
`audit_id`, `validate_event_id`, and `validate_data_consistency`
(INSERT needs `after_data`, DELETE needs `before_data`, UPDATE needs both). -/
def ChangeEvent.valid (e : ChangeEvent) : Bool :=
  (e.event_id = eventIdOf e.audit_id e.table_name e.row_id) &&
  decide (0 ≤ e.audit_id) &&
  (match e.operation with
   | .INSERT => e.after_data.isSome
   | .DELETE => e.before_data.isSome
   | .UPDATE => e.before_data.isSome && e.after_data.isSome)

/-- Constructing a `ChangeEvent`; pydantic raises a `ValidationError` when a
validator fails, modelled as `Except.error`. -/
def ChangeEvent.make (event_id : String) (audit_id timestamp : Int)
    (operation : OperationType) (table_name : String) (row_id : RowId)
    (before_data after_data : Option RowData) : Except String ChangeEvent :=
  let e : ChangeEvent :=
    { event_id := event_id, audit_id := audit_id, timestamp := timestamp,
      operation := operation, table_name := table_name, row_id := row_id,
      before_data := before_data, after_data := after_data }
  if e.valid then .ok e else .error "ValidationError"

/-- `models/audit.py` `AuditLog`: the persisted form of a change event.
`created_at` and `consumed_at` are opaque timestamps. -/
structure AuditLog where
  id : Int
  table_name : String
  operation : OperationType
  row_id : Option String
  before_data : Option RowData
  after_data : Option RowData
  created_at : Int
  consumed_at : Option Int
  retry_count : Int
deriving DecidableEq, Repr

/-- The pydantic validators of `AuditLog`: `ge=0` on `retry_count` and
`validate_data_consistency` (INSERT needs `after_data`, DELETE needs
`before_data`; UPDATE is not constrained here). -/
def AuditLog.valid (a : AuditLog) : Bool :=
  decide (0 ≤ a.retry_count) &&
  (match a.operation with
   | .INSERT => a.after_data.isSome
   | .DELETE => a.before_data.isSome
   | .UPDATE => true)

/-- Constructing an `AuditLog`; a failing validator raises, modelled as
`Except.error`. -/
def AuditLog.make (id : Int) (table_name : String) (operation : OperationType)
    (row_id : Option String) (before_data after_data : Option RowData)
    (created_at : Int) (consumed_at : Option Int) (retry_count : Int) :
    Except String AuditLog :=
  let a : AuditLog :=
    { id := id, table_name := table_name, operation := operation,
      row_id := row_id, before_data := before_data, after_data := after_data,
      created_at := created_at, consumed_at := consumed_at,
      retry_count := retry_count }
  if a.valid then .ok a else .error "ValidationError"

/-- The `try: row_id = int(row_id) except (ValueError, TypeError): pass`
step of `AuditLog.to_change_event`: keep the string when Python `int`
rejects it. -/
def pyIntRowId (s : String) : RowId :=
  match pyInt s with
  | some n => .intId n
  | none => .strId s

/-- `AuditLog.to_change_event`: `row_id = self.row_id or ""` (Python `or`
yields `""` both for `None` and for `""`, which is `Option.getD`), then the
`int(row_id)` attempt keeping the string on `ValueError`, then the
`ChangeEvent` constructor with its validators. -/
def AuditLog.to_change_event (a : AuditLog) : Except String ChangeEvent :=
  let r0 := a.row_id.getD ""
  let rid : RowId := pyIntRowId r0
  ChangeEvent.make (eventIdOf a.id a.table_name rid) a.id a.created_at
    a.operation a.table_name rid a.before_data a.after_data

/-- `AuditLog.from_change_event`: `audit_id = int(event.event_id.split(":")[0])`
(`parts[0]` is the text before the first colon; a failing `int` raises
`ValueError`), `row_id = str(event.row_id)`, payloads and timestamp carried
over, `consumed_at`/`retry_count` left at their defaults. -/
def AuditLog.from_change_event (e : ChangeEvent) : Except String AuditLog :=
  let part0 := String.mk (e.event_id.data.takeWhile (fun c => c != ':'))
  match pyInt part0 with
  | none => .error "ValueError"
  | some audit_id =>
      AuditLog.make audit_id e.table_name e.operation (some (pyStrRowId e.row_id))
        e.before_data e.after_data e.timestamp none 0

/-- What the code's conversion pair does to a row-id value: integers are kept;
strings that Python `int` accepts come back as the parsed integer, other
strings are kept. -/
def normalizeRowId : RowId → RowId
  | .intId i => .intId i
  | .strId s =>
    match pyInt s with
    | some n => .intId n
    | none => .strId s

/-! ### Round-trip lemmas -/

theorem append_data (s t : String) : (s ++ t).data = s.data ++ t.data := rfl

theorem mk_data (s : String) : String.mk s.data = s := rfl

theorem takeWhile_append_colon (l₁ l₂ : List Char)
    (h : ∀ c ∈ l₁, (c != ':') = true) :
    (l₁ ++ ':' :: l₂).takeWhile (fun c => c != ':') = l₁ := by
  induction l₁ with
  | nil => simp [List.takeWhile_cons]
  | cons c cs ih =>
    simp only [List.cons_append, List.takeWhile_cons, h c (by simp)]
    simp [ih (fun x hx => h x (by simp [hx]))]

theorem digit_ne_colon (c : Char) (h : isDigitC c = true) : (c != ':') = true := by
  have : c ≠ ':' := by
    intro he; subst he; exact absurd h (by decide)
  simp [this]

theorem pyStrInt_data_nonneg (i : Int) (h : 0 ≤ i) :
    (pyStrInt i).data = natDecDigits i.natAbs := by
  rw [pyStrInt, if_neg (by omega)]

theorem pyStrRowId_normalize (r : RowId) :
    pyIntRowId (pyStrRowId r) = normalizeRowId r := by
  cases r with
  | intId i => simp [pyStrRowId, pyIntRowId, pyInt_pyStrInt, normalizeRowId]
  | strId s => simp only [pyStrRowId, pyIntRowId, normalizeRowId]

/-- C4, amended: the round trip preserves `audit_id`, `table_name`,
`operation`, `before_data` and `after_data` exactly, and maps `row_id`
through `normalizeRowId` (an integer survives; a string survives only when
Python `int` rejects it, else it comes back as that integer). -/
theorem roundtrip_amended (e : ChangeEvent) (h : e.valid = true) :
    ∃ a e2, AuditLog.from_change_event e = .ok a ∧
      a.to_change_event = .ok e2 ∧
      e2.audit_id = e.audit_id ∧ e2.table_name = e.table_name ∧
      e2.operation = e.operation ∧ e2.before_data = e.before_data ∧
      e2.after_data = e.after_data ∧ e2.row_id = normalizeRowId e.row_id := by
  simp only [ChangeEvent.valid, Bool.and_eq_true, decide_eq_true_eq] at h
  obtain ⟨⟨hid, h0⟩, hcons⟩ := h
  have hdigits : ∀ c ∈ (pyStrInt e.audit_id).data, (c != ':') = true := by
    rw [pyStrInt_data_nonneg _ h0]
    exact fun c hc => digit_ne_colon c (natDecDigits_all_digit _ c hc)
  have hdata : e.event_id.data =
      (pyStrInt e.audit_id).data ++ ':' ::
        (e.table_name.data ++ ':' :: (pyStrRowId e.row_id).data) := by
    rw [hid]
    show (pyStrInt e.audit_id ++ ":" ++ e.table_name ++ ":" ++ pyStrRowId e.row_id).data = _
    simp only [append_data]
    simp [List.append_assoc]
  have hpart0 : String.mk (e.event_id.data.takeWhile (fun c => c != ':'))
      = pyStrInt e.audit_id := by
    rw [hdata, takeWhile_append_colon _ _ hdigits, mk_data]
  have havalid : (AuditLog.mk e.audit_id e.table_name e.operation
      (some (pyStrRowId e.row_id)) e.before_data e.after_data e.timestamp
      none 0).valid = true := by
    simp only [AuditLog.valid, Bool.and_eq_true, decide_eq_true_eq]
    refine ⟨by omega, ?_⟩
    cases hop : e.operation <;> rw [hop] at hcons <;> simp_all
  have hevalid : (ChangeEvent.mk
      (eventIdOf e.audit_id e.table_name (normalizeRowId e.row_id)) e.audit_id
      e.timestamp e.operation e.table_name (normalizeRowId e.row_id)
      e.before_data e.after_data).valid = true := by
    simp only [ChangeEvent.valid, Bool.and_eq_true, decide_eq_true_eq]
    refine ⟨⟨by trivial, h0⟩, ?_⟩
    cases hop : e.operation <;> rw [hop] at hcons <;> simp_all
  have hfrom : AuditLog.from_change_event e
      = .ok (AuditLog.mk e.audit_id e.table_name e.operation
        (some (pyStrRowId e.row_id)) e.before_data e.after_data e.timestamp
        none 0) := by
    rw [AuditLog.from_change_event]
    simp only [hpart0, pyInt_pyStrInt]
    rw [AuditLog.make]
    simp only [havalid, if_true]
  have hto : (AuditLog.mk e.audit_id e.table_name e.operation
      (some (pyStrRowId e.row_id)) e.before_data e.after_data e.timestamp
      none 0).to_change_event
      = .ok (ChangeEvent.mk
        (eventIdOf e.audit_id e.table_name (normalizeRowId e.row_id)) e.audit_id
        e.timestamp e.operation e.table_name (normalizeRowId e.row_id)
        e.before_data e.after_data) := by
    rw [AuditLog.to_change_event]
    simp only [Option.getD_some, pyStrRowId_normalize]
    rw [ChangeEvent.make]
    simp only [hevalid, if_true]
  exact ⟨_, _, hfrom, hto, rfl, rfl, rfl, rfl, rfl, rfl⟩

/-- A valid `ChangeEvent` whose `row_id` is the numeric string `"42"`. -/
def numericStrEvent : ChangeEvent :=
  { event_id := "1:users:42", audit_id := 1, timestamp := 0,
    operation := .INSERT, table_name := "users", row_id := .strId "42",
    before_data := none, after_data := some [("id", "42")] }

/-- C4, counterexample: the round trip of the valid event with string
`row_id = "42"` yields `row_id = 42` as an integer, not the original
string, so the claimed equality on `row_id` fails. -/
theorem roundtrip_counterexample :
    numericStrEvent.valid = true ∧
    ((AuditLog.from_change_event numericStrEvent).bind
        AuditLog.to_change_event).map (fun e2 => e2.row_id)
      = Except.ok (RowId.intId 42) ∧
    RowId.intId 42 ≠ numericStrEvent.row_id :=
  ⟨rfl, rfl, by decide⟩

/-- A valid `ChangeEvent` with an integer `row_id`, used to instantiate the
amended round-trip theorem. -/
def intRowEvent : ChangeEvent :=
  { event_id := "5:orders:7", audit_id := 5, timestamp := 3,
    operation := .UPDATE, table_name := "orders", row_id := .intId 7,
    before_data := some [("id", "7")], after_data := some [("id", "7"), ("x", "1")] }

/-- Witness for the amended C4 round-trip theorem at a concrete event. -/
theorem roundtrip_amended_witness :
    ∃ a e2, AuditLog.from_change_event intRowEvent = .ok a ∧
      a.to_change_event = .ok e2 ∧
      e2.audit_id = intRowEvent.audit_id ∧ e2.table_name = intRowEvent.table_name ∧
      e2.operation = intRowEvent.operation ∧ e2.before_data = intRowEvent.before_data ∧
      e2.after_data = intRowEvent.after_data ∧
      e2.row_id = normalizeRowId intRowEvent.row_id :=
  roundtrip_amended intRowEvent (by decide)

/-! ## SQL classifier (`utils/sql_parser.py`) -/

/-- Prefix test on character lists (Python `str.startswith`). -/
def startsL : List Char → List Char → Bool
  | [], _ => true
  | _ :: _, [] => false
  | p :: ps, c :: cs => p = c && startsL ps cs

/-- Python `str.upper()` on ASCII letters (the SQL keywords involved are
ASCII; other characters pass through, as in CPython for ASCII input). -/
def toUpperL (l : List Char) : List Char :=
  l.map fun c =>
    if 97 ≤ c.toNat && c.toNat ≤ 122 then Char.ofNat (c.toNat - 32) else c

/-- `parse_operation`: `sql.strip().upper()` then `startswith` checks for
INSERT, UPDATE, DELETE in that order; anything else (SELECT, DDL, leading
comments, ...) yields `none`. -/
def parse_operation (sql : String) : Option String :=
  let u := toUpperL (stripWS sql.data)
  if startsL ("INSERT".data) u then some "INSERT"
  else if startsL ("UPDATE".data) u then some "UPDATE"
  else if startsL ("DELETE".data) u then some "DELETE"
  else none

/-- Model of Python `str.strip()` with no arguments, on a string value. -/
def stripStr (s : String) : String := String.mk (stripWS s.data)

/-- The three quote characters the extraction helpers strip from a table
name: double quote (34), single quote (39), backtick (96). -/
def isQuoteC (c : Char) : Bool := c = '"' || c.toNat = 39 || c.toNat = 96

/-- Python `value.strip(quotes)`: drop quote characters from both ends. -/
def stripQuotes (s : String) : String :=
  String.mk (((s.data.dropWhile isQuoteC).reverse.dropWhile isQuoteC).reverse)

/-- Python `str.upper()` on a string value. -/
def toUpperS (s : String) : String := String.mk (toUpperL s.data)

/-- The features of a `sqlparse` token the extraction walks test: the group
type (`Identifier`, carrying the result of `get_real_name()`, or `Function`)
or the token type (`Keyword` / `Name`); any other token is `otherK`. -/
inductive TokKind where
  | identifier (realName : Option String)
  | functionK
  | keywordK
  | nameK
  | otherK
deriving DecidableEq, Repr

/-- A `sqlparse` token as consumed by the extraction walks: its whitespace
flag, its text (`str(token)` and `token.value` coincide on the tokens the
walks inspect) and its kind. -/
structure SqlTok where
  ws : Bool
  value : String
  kind : TokKind
deriving DecidableEq, Repr

/-- The `_extract_from_insert` body at the first non-whitespace token after
INTO (sql_parser.py:103-110): an `Identifier`/`Function` group contributes
its text up to an opening parenthesis (whitespace-stripped when split), then
quote-stripped; any other token its quote-stripped value. -/
def extractInsertName (t : SqlTok) : Option String :=
  match t.kind with
  | .identifier _ | .functionK =>
    let raw := t.value
    let raw := if raw.data.contains '(' then
        stripStr (String.mk (raw.data.takeWhile (fun c => c != '('))) else raw
    some (stripQuotes raw)
  | _ => some (stripQuotes t.value)

/-- The `_extract_from_update` body (sql_parser.py:127-131): an `Identifier`
contributes its real name when truthy, `None` otherwise; any other token its
quote-stripped value. -/
def extractUpdateName (t : SqlTok) : Option String :=
  match t.kind with
  | .identifier rn =>
    match rn with
    | some n => if n = "" then none else some n
    | none => none
  | _ => some (stripQuotes t.value)

/-- The `_extract_from_delete` body (sql_parser.py:148-153): an `Identifier`
contributes its truthy real name, a `Name` or `Keyword` token its
quote-stripped value; anything else breaks out of the loop, yielding
`None`. -/
def extractDeleteName (t : SqlTok) : Option String :=
  match t.kind with
  | .identifier rn =>
    match rn with
    | some n => if n = "" then none else some n
    | none => none
  | .nameK | .keywordK => some (stripQuotes t.value)
  | _ => none

/-- The token loop of `_extract_from_insert`: skip whitespace, find the INTO
keyword (`found` is the `found_into` flag), apply the body to the first
non-whitespace token after it. -/
def extractFromInsertAux (found : Bool) : List SqlTok → Option String
  | [] => none
  | t :: rest =>
    if t.ws then extractFromInsertAux found rest
    else if found then extractInsertName t
    else if toUpperS t.value = "INTO" then extractFromInsertAux true rest
    else extractFromInsertAux false rest

/-- `_extract_from_insert` (sql_parser.py:89-111). -/
def extractFromInsert (tokens : List SqlTok) : Option String :=
  extractFromInsertAux false tokens

/-- The token loop of `_extract_from_update` (`found` is `found_update`). -/
def extractFromUpdateAux (found : Bool) : List SqlTok → Option String
  | [] => none
  | t :: rest =>
    if t.ws then extractFromUpdateAux found rest
    else if found then extractUpdateName t
    else if toUpperS t.value = "UPDATE" then extractFromUpdateAux true rest
    else extractFromUpdateAux false rest

/-- `_extract_from_update` (sql_parser.py:114-132). -/
def extractFromUpdate (tokens : List SqlTok) : Option String :=
  extractFromUpdateAux false tokens

/-- The token loop of `_extract_from_delete` (`found` is `found_from`; the
keyword test requires the token type to be `Keyword`). -/
def extractFromDeleteAux (found : Bool) : List SqlTok → Option String
  | [] => none
  | t :: rest =>
    if t.ws then extractFromDeleteAux found rest
    else if found then extractDeleteName t
    else if t.kind = TokKind.keywordK ∧ toUpperS t.value = "FROM" then
      extractFromDeleteAux true rest
    else extractFromDeleteAux false rest

/-- `_extract_from_delete` (sql_parser.py:135-155). -/
def extractFromDelete (tokens : List SqlTok) : Option String :=
  extractFromDeleteAux false tokens

/-- Upper-casing of one ASCII character (for the case-insensitive regex
match). -/
def upC (c : Char) : Char :=
  if 97 ≤ c.toNat && c.toNat ≤ 122 then Char.ofNat (c.toNat - 32) else c

/-- Scan to just past the next comment close (the two characters star,
slash); `none` when there is none. -/
def dropToClose : List Char → Option (List Char)
  | [] => none
  | '*' :: '/' :: rest => some rest
  | _ :: rest => dropToClose rest

/-- The comment-removing `re.sub` (non-greedy, DOTALL): each comment opening
is removed together with everything up to the nearest close; an opening
without a close stays.  Fuel-driven so the definition is structural;
`removeComments` supplies ample fuel. -/
def removeCommentsAux : Nat → List Char → List Char
  | 0, l => l
  | _ + 1, [] => []
  | fuel + 1, '/' :: '*' :: rest =>
    (match dropToClose rest with
     | some rest2 => removeCommentsAux fuel rest2
     | none => '/' :: removeCommentsAux fuel ('*' :: rest))
  | fuel + 1, c :: rest => c :: removeCommentsAux fuel rest

/-- `re.sub(r"/\*.*?\*/", "", sql, flags=re.DOTALL)` (sql_parser.py:160). -/
def removeComments (sql : String) : String :=
  String.mk (removeCommentsAux (sql.data.length + 1) sql.data)

/-- Case-insensitive match of a literal (written upper-case) at the head of
the input; yields the rest of the input. -/
def matchCI : List Char → List Char → Option (List Char)
  | [], l => some l
  | _ :: _, [] => none
  | p :: ps, c :: cs => if upC c = p then matchCI ps cs else none

/-- Regex `\s+`: at least one whitespace character, consumed greedily (in
these patterns always followed by a non-whitespace literal or class, so
greedy matching is exact). -/
def wsPlus (l : List Char) : Option (List Char) :=
  match l with
  | [] => none
  | c :: cs => if isPyWS c then some (cs.dropWhile isPyWS) else none

/-- The optional quote class: consume one quote character when present. -/
def optQuote (l : List Char) : List Char :=
  match l with
  | c :: cs => if isQuoteC c then cs else l
  | [] => l

/-- Regex word character `\w` (ASCII range; the statements handled here are
ASCII). -/
def isWordC (c : Char) : Bool :=
  (48 ≤ c.toNat && c.toNat ≤ 57) || (65 ≤ c.toNat && c.toNat ≤ 90) ||
  (97 ≤ c.toNat && c.toNat ≤ 122) || c = '_'

/-- The capture group `(\w+)`: the maximal nonempty word-character run. -/
def wordPlus (l : List Char) : Option String :=
  match l.takeWhile isWordC with
  | [] => none
  | w => some (String.mk w)

/-- One attempt of the INSERT pattern
`INSERT\s+INTO\s+[quote]?(\w+)[quote]?` at the head of the input. -/
def matchInsertAt (l : List Char) : Option String := do
  let r1 ← matchCI "INSERT".data l
  let r2 ← wsPlus r1
  let r3 ← matchCI "INTO".data r2
  let r4 ← wsPlus r3
  wordPlus (optQuote r4)

/-- One attempt of the UPDATE pattern `UPDATE\s+[quote]?(\w+)[quote]?`. -/
def matchUpdateAt (l : List Char) : Option String := do
  let r1 ← matchCI "UPDATE".data l
  let r2 ← wsPlus r1
  wordPlus (optQuote r2)

/-- One attempt of the DELETE pattern
`DELETE\s+(?:FROM\s+)?[quote]?(\w+)[quote]?`: the optional FROM group is
tried first and dropped when the remainder fails after it (regex
backtracking). -/
def matchDeleteAt (l : List Char) : Option String := do
  let r1 ← matchCI "DELETE".data l
  let r2 ← wsPlus r1
  let withFrom : Option String := do
    let r3 ← matchCI "FROM".data r2
    let r4 ← wsPlus r3
    wordPlus (optQuote r4)
  match withFrom with
  | some w => some w
  | none => wordPlus (optQuote r2)

/-- `re.search`: try the pattern at each start position, left to right. -/
def searchWith (m : List Char → Option String) : List Char → Option String
  | [] => none
  | c :: rest =>
    match m (c :: rest) with
    | some w => some w
    | none => searchWith m rest

/-- `_extract_with_regex` (sql_parser.py:158-186): comments removed, then the
operation-specific pattern searched case-insensitively. -/
def extractWithRegex (sql : String) (operation : String) : Option String :=
  let clean := (removeComments sql).data
  if operation = "INSERT" then searchWith matchInsertAt clean
  else if operation = "UPDATE" then searchWith matchUpdateAt clean
  else if operation = "DELETE" then searchWith matchDeleteAt clean
  else none

/-- `extract_table_name` (sql_parser.py:41-86): gate on `parse_operation`;
the external sqlparse parser is abstracted as `tokenize` — `.error` models a
raised exception (selecting the regex fallback), `.ok none` models
`if not parsed: return None`, `.ok (some stream)` the first statement's
token stream; the whitespace filter, the dispatch on the operation, the
extraction walks and the regex fallback are embedded concretely. -/
def extract_table_name (tokenize : String → Except Unit (Option (List SqlTok)))
    (sql : String) : Option String :=
  match parse_operation sql with
  | none => none
  | some op =>
    match tokenize sql with
    | .error _ => extractWithRegex sql op
    | .ok none => none
    | .ok (some stream) =>
      let tokens := stream.filter (fun t => !t.ws)
      if op = "INSERT" then extractFromInsert tokens
      else if op = "UPDATE" then extractFromUpdate tokens
      else if op = "DELETE" then extractFromDelete tokens
      else none

/-- `parse_sql`: `(parse_operation sql, extract_table_name sql)`, with the
early return `(None, None)` when the operation is not recognised. -/
def parse_sql (tokenize : String → Except Unit (Option (List SqlTok)))
    (sql : String) : Option String × Option String :=
  match parse_operation sql with
  | none => (none, none)
  | some op => (some op, extract_table_name tokenize sql)

theorem dropWhile_append_of_all {p : Char → Bool} (ws l : List Char)
    (h : ∀ c ∈ ws, p c = true) : (ws ++ l).dropWhile p = l.dropWhile p := by
  induction ws with
  | nil => rfl
  | cons c cs ih =>
    simp only [List.cons_append, List.dropWhile_cons, h c (by simp)]
    exact ih (fun x hx => h x (by simp [hx]))

theorem stripWS_append_ws (ws l : List Char) (h : ∀ c ∈ ws, isPyWS c = true) :
    stripWS (ws ++ l) = stripWS l := by
  unfold stripWS
  rw [dropWhile_append_of_all ws l h]

theorem parse_sql_fst (tz : String → Except Unit (Option (List SqlTok)))
    (sql : String) : (parse_sql tz sql).fst = parse_operation sql := by
  rcases h : parse_operation sql with _ | op <;> simp [parse_sql, h]

theorem extractFromInsertAux_walk (before : List SqlTok) (keyT nameT : SqlTok)
    (rest : List SqlTok) (hnws : ∀ t ∈ before, t.ws = false)
    (hnkey : ∀ t ∈ before, toUpperS t.value ≠ "INTO")
    (hkw : keyT.ws = false) (hkv : toUpperS keyT.value = "INTO")
    (hnw : nameT.ws = false) :
    extractFromInsertAux false (before ++ keyT :: nameT :: rest) =
      extractInsertName nameT := by
  induction before with
  | nil =>
    simp only [List.nil_append]
    simp [extractFromInsertAux, hkw, hkv, hnw]
  | cons t ts ih =>
    have h1 : t.ws = false := hnws t (by simp)
    have h2 : toUpperS t.value ≠ "INTO" := hnkey t (by simp)
    simp only [List.cons_append]
    rw [show extractFromInsertAux false (t :: (ts ++ keyT :: nameT :: rest)) =
        extractFromInsertAux false (ts ++ keyT :: nameT :: rest) from by
      simp [extractFromInsertAux, h1, h2]]
    exact ih (fun x hx => hnws x (by simp [hx]))
      (fun x hx => hnkey x (by simp [hx]))

theorem extractFromUpdateAux_walk (before : List SqlTok) (keyT nameT : SqlTok)
    (rest : List SqlTok) (hnws : ∀ t ∈ before, t.ws = false)
    (hnkey : ∀ t ∈ before, toUpperS t.value ≠ "UPDATE")
    (hkw : keyT.ws = false) (hkv : toUpperS keyT.value = "UPDATE")
    (hnw : nameT.ws = false) :
    extractFromUpdateAux false (before ++ keyT :: nameT :: rest) =
      extractUpdateName nameT := by
  induction before with
  | nil =>
    simp only [List.nil_append]
    simp [extractFromUpdateAux, hkw, hkv, hnw]
  | cons t ts ih =>
    have h1 : t.ws = false := hnws t (by simp)
    have h2 : toUpperS t.value ≠ "UPDATE" := hnkey t (by simp)
    simp only [List.cons_append]
    rw [show extractFromUpdateAux false (t :: (ts ++ keyT :: nameT :: rest)) =
        extractFromUpdateAux false (ts ++ keyT :: nameT :: rest) from by
      simp [extractFromUpdateAux, h1, h2]]
    exact ih (fun x hx => hnws x (by simp [hx]))
      (fun x hx => hnkey x (by simp [hx]))

theorem extractFromDeleteAux_walk (before : List SqlTok) (keyT nameT : SqlTok)
    (rest : List SqlTok) (hnws : ∀ t ∈ before, t.ws = false)
    (hnkey : ∀ t ∈ before, ¬(t.kind = TokKind.keywordK ∧ toUpperS t.value = "FROM"))
    (hkw : keyT.ws = false) (hkk : keyT.kind = TokKind.keywordK)
    (hkv : toUpperS keyT.value = "FROM") (hnw : nameT.ws = false) :
    extractFromDeleteAux false (before ++ keyT :: nameT :: rest) =
      extractDeleteName nameT := by
  induction before with
  | nil =>
    simp only [List.nil_append]
    simp [extractFromDeleteAux, hkw, hkk, hkv, hnw]
  | cons t ts ih =>
    have h1 : t.ws = false := hnws t (by simp)
    have h2 : ¬(t.kind = TokKind.keywordK ∧ toUpperS t.value = "FROM") :=
      hnkey t (by simp)
    simp only [List.cons_append]
    rw [show extractFromDeleteAux false (t :: (ts ++ keyT :: nameT :: rest)) =
        extractFromDeleteAux false (ts ++ keyT :: nameT :: rest) from by
      simp [extractFromDeleteAux, h1, h2]]
    exact ih (fun x hx => hnws x (by simp [hx]))
      (fun x hx => hnkey x (by simp [hx]))

theorem dropRevQuote (c : Char) (cs : List Char)
    (hl : ∀ d, (c :: cs).getLast? = some d → isQuoteC d = false) :
    ((c :: cs).reverse.dropWhile isQuoteC).reverse = c :: cs := by
  cases hr : (c :: cs).reverse with
  | nil => exact absurd hr (by simp)
  | cons d ds =>
    have hdl : (c :: cs).getLast? = some d := by
      rw [← List.head?_reverse, hr]
      rfl
    have hd := hl d hdl
    simp only [List.dropWhile_cons, hd, Bool.false_eq_true, if_false]
    rw [← hr, List.reverse_reverse]

theorem stripQuotesL_eq (l : List Char)
    (hh : ∀ c, l.head? = some c → isQuoteC c = false)
    (hl : ∀ c, l.getLast? = some c → isQuoteC c = false) :
    ((l.dropWhile isQuoteC).reverse.dropWhile isQuoteC).reverse = l := by
  cases l with
  | nil => rfl
  | cons c cs =>
    have hc : isQuoteC c = false := hh c rfl
    simp only [List.dropWhile_cons, hc, Bool.false_eq_true, if_false]
    exact dropRevQuote c cs hl

theorem stripQuotesL_quoted (q : Char) (l : List Char) (hq : isQuoteC q = true)
    (hh : ∀ c, l.head? = some c → isQuoteC c = false)
    (hl : ∀ c, l.getLast? = some c → isQuoteC c = false) :
    (((q :: l ++ [q]).dropWhile isQuoteC).reverse.dropWhile isQuoteC).reverse
      = l := by
  cases l with
  | nil => simp [List.dropWhile_cons, hq]
  | cons c cs =>
    have hc : isQuoteC c = false := hh c rfl
    simp only [List.cons_append, List.dropWhile_cons, hq, if_true, hc,
      Bool.false_eq_true, if_false]
    have hrev : (c :: (cs ++ [q])).reverse = q :: (c :: cs).reverse := by
      simp
    rw [hrev]
    simp only [List.dropWhile_cons, hq, if_true]
    exact dropRevQuote c cs hl

/-- C8, amended: `parse_sql` classifies a write statement by its first
characters after stripping whitespace only: leading whitespace is tolerated,
but a statement beginning with a comment yields `(none, none)`, as do SELECT
and DDL.  A classified statement yields its operation together with the
table name of `extract_table_name`: on the sqlparse token path the first
non-whitespace token after the INTO / UPDATE / FROM keyword supplies the
name — text up to a parenthesis for an INSERT group token, the truthy real
name of an Identifier for UPDATE/DELETE — and the extracted name is the
token's text verbatim apart from the surrounding quote characters (double
quote, single quote, backtick), which are stripped; when the parser raises,
a regex fallback extracts the first word-character run after the keyword
from the comment-stripped statement, case-insensitively, with optional
quotes. -/
theorem parse_sql_amended (tz : String → Except Unit (Option (List SqlTok)))
    (sql : String) (ws : List Char) (hws : ∀ c ∈ ws, isPyWS c = true) :
    (startsL ("INSERT".data) (toUpperL (stripWS sql.data)) = true →
      parse_sql tz sql = (some "INSERT", extract_table_name tz sql)) ∧
    (startsL ("UPDATE".data) (toUpperL (stripWS sql.data)) = true →
      parse_sql tz sql = (some "UPDATE", extract_table_name tz sql)) ∧
    (startsL ("DELETE".data) (toUpperL (stripWS sql.data)) = true →
      parse_sql tz sql = (some "DELETE", extract_table_name tz sql)) ∧
    (startsL ("INSERT".data) (toUpperL (stripWS sql.data)) = false →
      startsL ("UPDATE".data) (toUpperL (stripWS sql.data)) = false →
      startsL ("DELETE".data) (toUpperL (stripWS sql.data)) = false →
      parse_sql tz sql = (none, none)) ∧
    (parse_sql tz (String.mk (ws ++ sql.data))).fst = (parse_sql tz sql).fst ∧
    parse_sql tz "SELECT * FROM users" = (none, none) ∧
    parse_sql tz "CREATE TABLE users (id INTEGER)" = (none, none) ∧
    (∀ (stream before : List SqlTok) (keyT nameT : SqlTok) (rest : List SqlTok),
      tz sql = .ok (some stream) → parse_operation sql = some "INSERT" →
      stream.filter (fun t => !t.ws) = before ++ keyT :: nameT :: rest →
      (∀ t ∈ before, toUpperS t.value ≠ "INTO") →
      toUpperS keyT.value = "INTO" →
      extract_table_name tz sql = extractInsertName nameT) ∧
    (∀ (stream before : List SqlTok) (keyT nameT : SqlTok) (rest : List SqlTok),
      tz sql = .ok (some stream) → parse_operation sql = some "UPDATE" →
      stream.filter (fun t => !t.ws) = before ++ keyT :: nameT :: rest →
      (∀ t ∈ before, toUpperS t.value ≠ "UPDATE") →
      toUpperS keyT.value = "UPDATE" →
      extract_table_name tz sql = extractUpdateName nameT) ∧
    (∀ (stream before : List SqlTok) (keyT nameT : SqlTok) (rest : List SqlTok),
      tz sql = .ok (some stream) → parse_operation sql = some "DELETE" →
      stream.filter (fun t => !t.ws) = before ++ keyT :: nameT :: rest →
      (∀ t ∈ before, ¬(t.kind = TokKind.keywordK ∧ toUpperS t.value = "FROM")) →
      keyT.kind = TokKind.keywordK → toUpperS keyT.value = "FROM" →
      extract_table_name tz sql = extractDeleteName nameT) ∧
    (∀ (body : String) (q : Char), isQuoteC q = true →
      (∀ c, body.data.head? = some c → isQuoteC c = false) →
      (∀ c, body.data.getLast? = some c → isQuoteC c = false) →
      stripQuotes (String.mk (q :: body.data ++ [q])) = body ∧
      stripQuotes body = body) ∧
    extractInsertName (SqlTok.mk false "users (id, name)" TokKind.functionK)
      = some "users" ∧
    parse_sql (fun _ => .error ()) "INSERT INTO `users` VALUES (1)" =
      (some "INSERT", some "users") ∧
    parse_sql (fun _ => .error ()) "  update \"orders\" set total = 1" =
      (some "UPDATE", some "orders") ∧
    parse_sql (fun _ => .error ()) "DELETE /* fast */ FROM users WHERE id = 1" =
      (some "DELETE", some "users") := by
  have hwsp : parse_operation (String.mk (ws ++ sql.data)) = parse_operation sql := by
    unfold parse_operation
    rw [data_mk, stripWS_append_ws ws sql.data hws]
  refine ⟨?_, ?_, ?_, ?_, ?_, ?_, ?_, ?_, ?_, ?_, ?_, ?_, ?_, ?_, ?_⟩
  · intro h
    unfold parse_sql parse_operation
    simp only [h, if_true]
  · intro h
    have hni : startsL ("INSERT".data) (toUpperL (stripWS sql.data)) = false := by
      cases hi : startsL ("INSERT".data) (toUpperL (stripWS sql.data)) with
      | false => rfl
      | true =>
        exfalso
        cases hu : toUpperL (stripWS sql.data) with
        | nil => rw [hu] at h; exact absurd h (by decide)
        | cons c cs =>
          rw [hu] at h hi
          have h1 : ('U' = c && startsL ("PDATE".data) cs) = true := h
          have h2 : ('I' = c && startsL ("NSERT".data) cs) = true := hi
          simp only [Bool.and_eq_true, decide_eq_true_eq] at h1 h2
          rw [← h1.1] at h2
          exact absurd h2.1 (by decide)
    unfold parse_sql parse_operation
    simp only [hni, h, if_true, if_false, ite_false, ite_true]
    rfl
  · intro h
    have hni : startsL ("INSERT".data) (toUpperL (stripWS sql.data)) = false := by
      cases hi : startsL ("INSERT".data) (toUpperL (stripWS sql.data)) with
      | false => rfl
      | true =>
        exfalso
        cases hu : toUpperL (stripWS sql.data) with
        | nil => rw [hu] at h; exact absurd h (by decide)
        | cons c cs =>
          rw [hu] at h hi
          have h1 : ('D' = c && startsL ("ELETE".data) cs) = true := h
          have h2 : ('I' = c && startsL ("NSERT".data) cs) = true := hi
          simp only [Bool.and_eq_true, decide_eq_true_eq] at h1 h2
          rw [← h1.1] at h2
          exact absurd h2.1 (by decide)
    have hnu : startsL ("UPDATE".data) (toUpperL (stripWS sql.data)) = false := by
      cases hi : startsL ("UPDATE".data) (toUpperL (stripWS sql.data)) with
      | false => rfl
      | true =>
        exfalso
        cases hu : toUpperL (stripWS sql.data) with
        | nil => rw [hu] at h; exact absurd h (by decide)
        | cons c cs =>
          rw [hu] at h hi
          have h1 : ('D' = c && startsL ("ELETE".data) cs) = true := h
          have h2 : ('U' = c && startsL ("PDATE".data) cs) = true := hi
          simp only [Bool.and_eq_true, decide_eq_true_eq] at h1 h2
          rw [← h1.1] at h2
          exact absurd h2.1 (by decide)
    unfold parse_sql parse_operation
    simp only [hni, hnu, h, if_true, if_false, ite_false, ite_true]
    rfl
  · intro h1 h2 h3
    unfold parse_sql parse_operation
    simp only [h1, h2, h3, if_false, ite_false]
    rfl
  · rw [parse_sql_fst, parse_sql_fst, hwsp]
  · rfl
  · rfl
  · intro stream before keyT nameT rest htz hop hfilter hnkey hkv
    have hmem : ∀ t ∈ before ++ keyT :: nameT :: rest, t.ws = false := by
      intro t ht
      rw [← hfilter] at ht
      have h2 := List.of_mem_filter ht
      simpa using h2
    simp only [extract_table_name, hop, htz]
    rw [if_pos trivial]
    simp only [extractFromInsert]
    rw [hfilter]
    exact extractFromInsertAux_walk before keyT nameT rest
      (fun t ht => hmem t (List.mem_append_left _ ht)) hnkey
      (hmem keyT (by simp)) hkv (hmem nameT (by simp))
  · intro stream before keyT nameT rest htz hop hfilter hnkey hkv
    have hmem : ∀ t ∈ before ++ keyT :: nameT :: rest, t.ws = false := by
      intro t ht
      rw [← hfilter] at ht
      have h2 := List.of_mem_filter ht
      simpa using h2
    simp only [extract_table_name, hop, htz]
    rw [if_pos trivial]
    simp only [extractFromUpdate]
    rw [hfilter]
    exact extractFromUpdateAux_walk before keyT nameT rest
      (fun t ht => hmem t (List.mem_append_left _ ht)) hnkey
      (hmem keyT (by simp)) hkv (hmem nameT (by simp))
  · intro stream before keyT nameT rest htz hop hfilter hnkey hkk hkv
    have hmem : ∀ t ∈ before ++ keyT :: nameT :: rest, t.ws = false := by
      intro t ht
      rw [← hfilter] at ht
      have h2 := List.of_mem_filter ht
      simpa using h2
    simp only [extract_table_name, hop, htz]
    rw [if_pos trivial]
    simp only [extractFromDelete]
    rw [hfilter]
    exact extractFromDeleteAux_walk before keyT nameT rest
      (fun t ht => hmem t (List.mem_append_left _ ht)) hnkey
      (hmem keyT (by simp)) hkk hkv (hmem nameT (by simp))
  · intro body q hq hh hl
    refine ⟨?_, ?_⟩
    · show stripQuotes (String.mk (q :: body.data ++ [q])) = body
      unfold stripQuotes
      rw [data_mk]
      rw [stripQuotesL_quoted q body.data hq hh hl]
    · unfold stripQuotes
      rw [stripQuotesL_eq body.data hh hl]
  · rfl
  · rfl
  · rfl
  · rfl

/-- A plausible sqlparse token stream for
`insert into users (name) values (1)`: the DML keyword, whitespace, the INTO
keyword, whitespace, a Function-shaped group holding the table name and the
column list, whitespace, the values clause. -/
def insTokensW : List SqlTok :=
  [SqlTok.mk false "insert" TokKind.keywordK,
   SqlTok.mk true " " TokKind.otherK,
   SqlTok.mk false "into" TokKind.keywordK,
   SqlTok.mk true " " TokKind.otherK,
   SqlTok.mk false "users (name)" TokKind.functionK,
   SqlTok.mk true " " TokKind.otherK,
   SqlTok.mk false "values (1)" TokKind.otherK]

/-- A tokenizer that always succeeds with `insTokensW`. -/
def tzW : String → Except Unit (Option (List SqlTok)) :=
  fun _ => .ok (some insTokensW)

/-- C8, counterexample: a well-formed INSERT preceded by a block comment is
not classified — `parse_sql` returns `(none, none)` even though the
tokenizer succeeds and walking its token stream would extract the table name
`users` — because `parse_operation` only strips whitespace before its
`startswith` checks. -/
theorem parse_sql_leading_comment_counterexample :
    parse_sql tzW "/* audit */ insert into users (name) values (1)"
      = (none, none) ∧
    extractFromInsert (insTokensW.filter (fun t => !t.ws)) = some "users" :=
  ⟨rfl, rfl⟩

/-- Witness for the amended C8 theorem: a lower-case INSERT is classified,
and the token path extracts the table name out of the Function-shaped token,
dropping the column list after the parenthesis. -/
theorem parse_sql_amended_witness :
    parse_sql tzW "insert into users (name) values (1)"
      = (some "INSERT", some "users") := by
  have h := parse_sql_amended tzW "insert into users (name) values (1)" []
    (by simp)
  have h1 := h.1 (by decide)
  have h8 := h.2.2.2.2.2.2.2.1 insTokensW
    [SqlTok.mk false "insert" TokKind.keywordK]
    (SqlTok.mk false "into" TokKind.keywordK)
    (SqlTok.mk false "users (name)" TokKind.functionK)
    [SqlTok.mk false "values (1)" TokKind.otherK]
    rfl (by decide) rfl (by decide) (by decide)
  rw [h1, h8]
  rfl

/-! ## Audit reader (`core/audit_reader.py`) -/

/-- A raw `_cdc_audit_log` row as returned by the unconsumed query (payloads
still JSON text; `operation` is CHECK-constrained to the three values and
therefore typed). -/
structure AuditRow where
  id : Int
  table_name : String
  operation : OperationType
  row_id : Option String
  before_data : Option String
  after_data : Option String
  created_at : Int
  consumed_at : Option Int
  retry_count : Int
deriving DecidableEq, Repr

/-- Insertion into a sorted list (helper of `sortBy`). -/
def insertSorted {α : Type} (le : α → α → Bool) (x : α) : List α → List α
  | [] => [x]
  | y :: ys => if le x y then x :: y :: ys else y :: insertSorted le x ys

/-- A structural sort, used to realize SQL `ORDER BY` (only the sorted result
matters; the database's sorting algorithm is unobservable). -/
def sortBy {α : Type} (le : α → α → Bool) : List α → List α
  | [] => []
  | x :: xs => insertSorted le x (sortBy le xs)

/-- `_fetch_unconsumed` (success path): the SQL
`SELECT ... WHERE id > :last AND consumed_at IS NULL ORDER BY id LIMIT :n`
over the audit table, the relation being a list of rows. -/
def fetchUnconsumed (table : List AuditRow) (lastId : Int) (limit : Nat) :
    List AuditRow :=
  ((sortBy (fun a b => decide (a.id ≤ b.id))
    (table.filter fun r => decide (lastId < r.id) && r.consumed_at.isNone)).take limit)

/-- `_row_to_audit_log`: deserialize the JSON payloads — a `None` or empty
(falsy) text stays `None`, and a `json.JSONDecodeError` (`parseJson _ = none`)
is swallowed leaving `None` — then the `AuditLog` constructor runs its
pydantic validators.  `parseJson` abstracts the external `json.loads`. -/
def row_to_audit_log (parseJson : String → Option RowData) (r : AuditRow) :
    Except String AuditLog :=
  let before := match r.before_data with
    | none => none
    | some s => if s = "" then none else parseJson s
  let after := match r.after_data with
    | none => none
    | some s => if s = "" then none else parseJson s
  AuditLog.make r.id r.table_name r.operation r.row_id before after
    r.created_at none r.retry_count

/-- `AuditReader`: the in-memory reader state (`_running`, `_last_audit_id`,
`batch_size`). -/
structure ReaderState where
  running : Bool
  last_audit_id : Int
  batch_size : Nat
deriving DecidableEq, Repr

/-- The conversion loop inside `fetch_batch`: each row becomes an `AuditLog`
and then a `ChangeEvent` (a raised validation error propagates out of the
whole loop), and the in-memory cursor is raised to each event id exceeding
it. -/
def convertLoop (parseJson : String → Option RowData) :
    List AuditRow → Int → Except String (List ChangeEvent × Int)
  | [], last => .ok ([], last)
  | r :: rs, last =>
    match row_to_audit_log parseJson r with
    | .error e => .error e
    | .ok a =>
      match a.to_change_event with
      | .error e => .error e
      | .ok ev =>
        match convertLoop parseJson rs (if ev.audit_id > last then ev.audit_id else last) with
        | .error e => .error e
        | .ok (evs, lastF) => .ok (ev :: evs, lastF)

/-- `AuditReader.fetch_batch`: nothing when stopped; an empty fetch sleeps
`poll_interval` and yields `[]`; otherwise the rows are converted and
`_last_audit_id` becomes the largest id observed. -/
def fetch_batch (parseJson : String → Option RowData) (s : ReaderState)
    (table : List AuditRow) : Except String (List ChangeEvent × ReaderState) :=
  if s.running = false then .ok ([], s)
  else
    let rows := fetchUnconsumed table s.last_audit_id s.batch_size
    if rows = [] then .ok ([], s)
    else
      match convertLoop parseJson rows s.last_audit_id with
      | .error e => .error e
      | .ok (evs, lastF) => .ok (evs, { s with last_audit_id := lastF })

/-- `AuditReader.mark_consumed`: `UPDATE ... SET consumed_at = now WHERE id
IN (...)`, a no-op for an empty id list. -/
def mark_consumed (now : Int) (table : List AuditRow) (audit_ids : List Int) :
    List AuditRow :=
  if audit_ids = [] then table
  else table.map fun r =>
    if r.id ∈ audit_ids then { r with consumed_at := some now } else r

/-! ### Reader lemmas -/

theorem changeEventMake_ok (ei : String) (aid ts : Int) (op : OperationType)
    (tn : String) (rid : RowId) (bd ad : Option RowData) (e : ChangeEvent)
    (h : ChangeEvent.make ei aid ts op tn rid bd ad = .ok e) :
    e = ChangeEvent.mk ei aid ts op tn rid bd ad := by
  simp only [ChangeEvent.make] at h
  split at h
  · injection h with h2; exact h2.symm
  · simp at h

theorem auditLogMake_ok (id : Int) (tn : String) (op : OperationType)
    (rid : Option String) (bd ad : Option RowData) (ca : Int)
    (cons : Option Int) (rc : Int) (a : AuditLog)
    (h : AuditLog.make id tn op rid bd ad ca cons rc = .ok a) :
    a = AuditLog.mk id tn op rid bd ad ca cons rc := by
  simp only [AuditLog.make] at h
  split at h
  · injection h with h2; exact h2.symm
  · simp at h

theorem to_change_event_ok (a : AuditLog) (ev : ChangeEvent)
    (h : a.to_change_event = .ok ev) :
    ev.audit_id = a.id ∧ ev.table_name = a.table_name ∧
    ev.operation = a.operation ∧ ev.before_data = a.before_data ∧
    ev.after_data = a.after_data := by
  unfold AuditLog.to_change_event at h
  have h2 := changeEventMake_ok _ _ _ _ _ _ _ _ _ h
  subst h2
  exact ⟨rfl, rfl, rfl, rfl, rfl⟩

theorem row_to_audit_log_ok (pj : String → Option RowData) (r : AuditRow)
    (a : AuditLog) (h : row_to_audit_log pj r = .ok a) :
    a.id = r.id ∧ a.table_name = r.table_name ∧ a.operation = r.operation ∧
    a.row_id = r.row_id ∧ a.created_at = r.created_at ∧
    a.retry_count = r.retry_count := by
  unfold row_to_audit_log at h
  have h2 := auditLogMake_ok _ _ _ _ _ _ _ _ _ _ h
  subst h2
  exact ⟨rfl, rfl, rfl, rfl, rfl, rfl⟩

theorem convertLoop_ok_spec (pj : String → Option RowData) (rows : List AuditRow)
    (last : Int) (evs : List ChangeEvent) (lastF : Int)
    (h : convertLoop pj rows last = .ok (evs, lastF)) :
    evs.map (fun ev => ev.audit_id) = rows.map (fun r => r.id) ∧
    lastF = rows.foldl (fun m r => if r.id > m then r.id else m) last := by
  induction rows generalizing last evs lastF with
  | nil =>
    rw [convertLoop] at h
    injection h with h2
    injection h2 with h3 h4
    subst h3; subst h4
    simp
  | cons r rs ih =>
    rw [convertLoop] at h
    rcases hr : row_to_audit_log pj r with e | a
    · simp only [hr] at h
      exact Except.noConfusion h
    · simp only [hr] at h
      rcases ht : a.to_change_event with e | ev0
      · simp only [ht] at h
        exact Except.noConfusion h
      · simp only [ht] at h
        rcases hc : convertLoop pj rs
            (if ev0.audit_id > last then ev0.audit_id else last) with e | p
        · simp only [hc] at h
          exact Except.noConfusion h
        · obtain ⟨evs0, lastF0⟩ := p
          simp only [hc] at h
          injection h with h2
          injection h2 with h3 h4
          subst h3; subst h4
          have hid : ev0.audit_id = r.id := by
            rw [(to_change_event_ok _ _ ht).1, (row_to_audit_log_ok _ _ _ hr).1]
          obtain ⟨ihm, ihf⟩ := ih _ _ _ hc
          constructor
          · simp only [List.map_cons, ihm, hid]
          · rw [ihf, List.foldl_cons, hid]

theorem foldl_cursor_spec (rows : List AuditRow) (last : Int) :
    (rows.foldl (fun m r => if r.id > m then r.id else m) last = last ∨
      rows.foldl (fun m r => if r.id > m then r.id else m) last
        ∈ rows.map (fun r => r.id)) ∧
    last ≤ rows.foldl (fun m r => if r.id > m then r.id else m) last ∧
    ∀ r ∈ rows, r.id ≤ rows.foldl (fun m r => if r.id > m then r.id else m) last := by
  induction rows generalizing last with
  | nil => simp
  | cons x xs ih =>
    simp only [List.foldl_cons, List.map_cons, List.mem_cons]
    by_cases hx : x.id > last
    · simp only [if_pos hx]
      obtain ⟨ih1, ih2, ih3⟩ := ih x.id
      refine ⟨?_, by omega, ?_⟩
      · rcases ih1 with h1 | h1
        · right; left; exact h1
        · right; right; exact h1
      · intro r hr
        rcases hr with rfl | hr
        · exact ih2
        · exact ih3 r hr
    · simp only [if_neg hx]
      obtain ⟨ih1, ih2, ih3⟩ := ih last
      refine ⟨?_, ih2, ?_⟩
      · rcases ih1 with h1 | h1
        · left; exact h1
        · right; right; exact h1
      · intro r hr
        rcases hr with rfl | hr
        · omega
        · exact ih3 r hr

theorem insertSorted_perm {α : Type} (le : α → α → Bool) (x : α) (l : List α) :
    (insertSorted le x l).Perm (x :: l) := by
  induction l with
  | nil => rfl
  | cons y ys ih =>
    rw [insertSorted]
    by_cases h : le x y = true
    · rw [if_pos h]
    · rw [if_neg h]
      exact (ih.cons y).trans (List.Perm.swap x y ys)

theorem sortBy_perm {α : Type} (le : α → α → Bool) (l : List α) :
    (sortBy le l).Perm l := by
  induction l with
  | nil => rfl
  | cons x xs ih =>
    rw [sortBy]
    exact (insertSorted_perm le x (sortBy le xs)).trans (ih.cons x)

theorem pairwise_insertSorted {α : Type} (le : α → α → Bool)
    (htrans : ∀ a b c, le a b = true → le b c = true → le a c = true)
    (htot : ∀ a b, (le a b || le b a) = true) (x : α) (l : List α)
    (hl : l.Pairwise (fun a b => le a b = true)) :
    (insertSorted le x l).Pairwise (fun a b => le a b = true) := by
  induction l with
  | nil => simp [insertSorted]
  | cons y ys ih =>
    rw [insertSorted]
    rw [List.pairwise_cons] at hl
    obtain ⟨hy, hys⟩ := hl
    by_cases h : le x y = true
    · rw [if_pos h]
      refine List.Pairwise.cons ?_ (List.Pairwise.cons hy hys)
      intro z hz
      rcases List.mem_cons.mp hz with rfl | hz2
      · exact h
      · exact htrans x y z h (hy z hz2)
    · rw [if_neg h]
      have hyx : le y x = true := by
        have := htot x y
        rw [Bool.or_eq_true] at this
        rcases this with h1 | h1
        · exact absurd h1 h
        · exact h1
      refine List.Pairwise.cons ?_ (ih hys)
      intro z hz
      have hz2 : z ∈ x :: ys := (insertSorted_perm le x ys).mem_iff.mp hz
      rcases List.mem_cons.mp hz2 with rfl | hz3
      · exact hyx
      · exact hy z hz3

theorem pairwise_sortBy {α : Type} (le : α → α → Bool)
    (htrans : ∀ a b c, le a b = true → le b c = true → le a c = true)
    (htot : ∀ a b, (le a b || le b a) = true) (l : List α) :
    (sortBy le l).Pairwise (fun a b => le a b = true) := by
  induction l with
  | nil => simp [sortBy]
  | cons x xs ih =>
    rw [sortBy]
    exact pairwise_insertSorted le htrans htot x (sortBy le xs) ih

theorem fetchUnconsumed_spec (table : List AuditRow) (lastId : Int) (limit : Nat)
    (htab : table.Pairwise (fun a b => a.id < b.id)) :
    (fetchUnconsumed table lastId limit).length ≤ limit ∧
    (∀ r ∈ fetchUnconsumed table lastId limit,
      r ∈ table ∧ lastId < r.id ∧ r.consumed_at = none) ∧
    (fetchUnconsumed table lastId limit).Pairwise (fun a b => a.id < b.id) := by
  classical
  set p : AuditRow → Bool := fun r => decide (lastId < r.id) && r.consumed_at.isNone with hp
  set le : AuditRow → AuditRow → Bool := fun a b => decide (a.id ≤ b.id) with hle
  set F : List AuditRow := table.filter p with hF
  set S : List AuditRow := sortBy le F with hS
  have hperm : S.Perm F := sortBy_perm le F
  have hsorted : S.Pairwise (fun a b => le a b = true) := by
    refine pairwise_sortBy le ?_ ?_ F
    · intro a b c hab hbc
      simp only [hle, decide_eq_true_eq] at hab hbc ⊢
      omega
    · intro a b
      simp only [hle, Bool.or_eq_true, decide_eq_true_eq]
      omega
  have hFpw : F.Pairwise (fun a b => a.id < b.id) := htab.filter p
  have hFnody : (F.map (fun r => r.id)).Nodup :=
    List.pairwise_map.mpr (hFpw.imp (fun hab => Int.ne_of_lt hab))
  have hSnody : (S.map (fun r => r.id)).Nodup :=
    ((hperm.map (fun r => r.id)).nodup_iff).mpr hFnody
  have hSne : S.Pairwise (fun a b => a.id ≠ b.id) :=
    List.pairwise_map.mp hSnody
  have hSlt : S.Pairwise (fun a b => a.id < b.id) := by
    have hand := (hsorted.and hSne)
    refine hand.imp ?_
    intro a b hab
    obtain ⟨h1, h2⟩ := hab
    simp only [hle, decide_eq_true_eq] at h1
    omega
  have hTake : fetchUnconsumed table lastId limit = S.take limit := by
    rw [fetchUnconsumed, hS, hF, hle, hp]
  refine ⟨?_, ?_, ?_⟩
  · rw [hTake]; exact List.length_take_le limit S
  · intro r hr
    rw [hTake] at hr
    have hrS : r ∈ S := (List.take_sublist limit S).subset hr
    have hrF : r ∈ F := hperm.mem_iff.mp hrS
    rw [hF, List.mem_filter] at hrF
    obtain ⟨hrt, hpr⟩ := hrF
    rw [hp] at hpr
    simp only [Bool.and_eq_true, decide_eq_true_eq, Option.isNone_iff_eq_none] at hpr
    exact ⟨hrt, hpr.1, hpr.2⟩
  · rw [hTake]
    exact List.Pairwise.sublist (List.take_sublist limit S) hSlt

/-- C7 (confirmed): a successful `fetch_batch` yields at most `batch_size`
events in strictly ascending `audit_id` order; every event stems from an
unconsumed audit row with id strictly above the incoming cursor; the
resulting cursor is unchanged for an empty batch and otherwise equals the
maximum `audit_id` observed; the other reader fields are untouched. -/
theorem fetch_batch_spec (pj : String → Option RowData) (s : ReaderState)
    (table : List AuditRow) (evs : List ChangeEvent) (s2 : ReaderState)
    (htab : table.Pairwise (fun a b => a.id < b.id))
    (h : fetch_batch pj s table = .ok (evs, s2)) :
    evs.length ≤ s.batch_size ∧
    evs.Pairwise (fun a b => a.audit_id < b.audit_id) ∧
    (∀ ev ∈ evs, s.last_audit_id < ev.audit_id ∧
      ∃ r ∈ table, r.id = ev.audit_id ∧ r.consumed_at = none) ∧
    (evs = [] → s2 = s) ∧
    (evs ≠ [] → s2.last_audit_id ∈ evs.map (fun ev => ev.audit_id) ∧
      ∀ ev ∈ evs, ev.audit_id ≤ s2.last_audit_id) ∧
    s2.batch_size = s.batch_size ∧ s2.running = s.running := by
  obtain ⟨hlen, hmem, hpw⟩ := fetchUnconsumed_spec table s.last_audit_id s.batch_size htab
  simp only [fetch_batch] at h
  by_cases hrun : s.running = false
  · rw [if_pos hrun] at h
    injection h with h2
    injection h2 with h3 h4
    subst h3; subst h4
    simp
  · rw [if_neg hrun] at h
    by_cases hrows : fetchUnconsumed table s.last_audit_id s.batch_size = []
    · rw [if_pos hrows] at h
      injection h with h2
      injection h2 with h3 h4
      subst h3; subst h4
      simp
    · rw [if_neg hrows] at h
      rcases hc : convertLoop pj (fetchUnconsumed table s.last_audit_id s.batch_size)
          s.last_audit_id with e | p
      · simp only [hc] at h
        exact Except.noConfusion h
      · obtain ⟨evs0, lastF⟩ := p
        simp only [hc] at h
        injection h with h2
        injection h2 with h3 h4
        subst h3; subst h4
        obtain ⟨hmap, hfold⟩ := convertLoop_ok_spec _ _ _ _ _ hc
        obtain ⟨hf1, hf2, hf3⟩ := foldl_cursor_spec
          (fetchUnconsumed table s.last_audit_id s.batch_size) s.last_audit_id
        have hlen2 : evs0.length =
            (fetchUnconsumed table s.last_audit_id s.batch_size).length := by
          have := congrArg List.length hmap
          simpa using this
        refine ⟨by omega, ?_, ?_, ?_, ?_, rfl, rfl⟩
        · have hpw2 : ((fetchUnconsumed table s.last_audit_id s.batch_size).map
              (fun r => r.id)).Pairwise (fun a b => a < b) :=
            List.pairwise_map.mpr hpw
          rw [← hmap] at hpw2
          exact List.pairwise_map.mp hpw2
        · intro ev hev
          have hevid : ev.audit_id ∈
              (fetchUnconsumed table s.last_audit_id s.batch_size).map (fun r => r.id) := by
            rw [← hmap]
            exact List.mem_map_of_mem _ hev
          obtain ⟨r, hrmem, hrid⟩ := List.mem_map.mp hevid
          obtain ⟨hrt, hlt, hcons⟩ := hmem r hrmem
          exact ⟨by omega, r, hrt, hrid, hcons⟩
        · intro he
          subst he
          simp only [List.map_nil] at hmap
          exact absurd (List.map_eq_nil_iff.mp hmap.symm) hrows
        · intro _
          constructor
          · rcases hf1 with h1 | h1
            · exfalso
              obtain ⟨r0, hr0⟩ :=
                List.exists_mem_of_ne_nil _ hrows
              have := hf3 r0 hr0
              have := (hmem r0 hr0).2.1
              rw [hfold] at *
              omega
            · show lastF ∈ evs0.map (fun ev => ev.audit_id)
              rw [hmap, hfold]
              exact h1
          · intro ev hev
            have hevid : ev.audit_id ∈
                (fetchUnconsumed table s.last_audit_id s.batch_size).map (fun r => r.id) := by
              rw [← hmap]
              exact List.mem_map_of_mem _ hev
            obtain ⟨r, hrmem, hrid⟩ := List.mem_map.mp hevid
            have := hf3 r hrmem
            show ev.audit_id ≤ lastF
            rw [hfold, ← hrid] at *
            omega

/-- A concrete stand-in for `json.loads`: the text `"not json"` is malformed
(raises, i.e. `none`), anything else parses to a one-field object. -/
def pjW : String → Option RowData :=
  fun s => if s = "not json" then none else some [("k", s)]

/-- A well-formed unconsumed INSERT audit row. -/
def rowW : AuditRow :=
  { id := 1, table_name := "t", operation := .INSERT, row_id := some "7",
    before_data := none, after_data := some "v", created_at := 5,
    consumed_at := none, retry_count := 0 }

/-- The reader state used to instantiate the `fetch_batch` theorem. -/
def stW : ReaderState := { running := true, last_audit_id := 0, batch_size := 2 }

/-- The event `fetch_batch` produces from `rowW`. -/
def evW : ChangeEvent :=
  { event_id := "1:t:7", audit_id := 1, timestamp := 5, operation := .INSERT,
    table_name := "t", row_id := .intId 7, before_data := none,
    after_data := some [("k", "v")] }

/-- Witness for the C7 `fetch_batch` theorem at a concrete one-row table. -/
theorem fetch_batch_spec_witness :
    [evW].length ≤ stW.batch_size ∧
    [evW].Pairwise (fun a b => a.audit_id < b.audit_id) ∧
    (∀ ev ∈ [evW], stW.last_audit_id < ev.audit_id ∧
      ∃ r ∈ [rowW], r.id = ev.audit_id ∧ r.consumed_at = none) ∧
    ([evW] = ([] : List ChangeEvent) → ReaderState.mk true 1 2 = stW) ∧
    ([evW] ≠ [] →
      (ReaderState.mk true 1 2).last_audit_id ∈ [evW].map (fun ev => ev.audit_id) ∧
      ∀ ev ∈ [evW], ev.audit_id ≤ (ReaderState.mk true 1 2).last_audit_id) ∧
    (ReaderState.mk true 1 2).batch_size = stW.batch_size ∧
    (ReaderState.mk true 1 2).running = stW.running :=
  fetch_batch_spec pjW stW [rowW] [evW] (ReaderState.mk true 1 2)
    (by simp) (by rfl)

/-- The full row-to-event conversion `fetch_batch` performs per row:
`_row_to_audit_log` followed by `to_change_event`. -/
def rowConv (pj : String → Option RowData) (r : AuditRow) :
    Except String ChangeEvent :=
  (row_to_audit_log pj r).bind AuditLog.to_change_event

theorem row_to_audit_log_ok_eq (pj : String → Option RowData) (r : AuditRow)
    (a : AuditLog) (h : row_to_audit_log pj r = .ok a) :
    a = AuditLog.mk r.id r.table_name r.operation r.row_id
      (match r.before_data with
       | none => none
       | some s => if s = "" then none else pj s)
      (match r.after_data with
       | none => none
       | some s => if s = "" then none else pj s)
      r.created_at none r.retry_count := by
  unfold row_to_audit_log at h
  exact auditLogMake_ok _ _ _ _ _ _ _ _ _ _ h

theorem to_change_event_update_missing (a : AuditLog)
    (hop : a.operation = .UPDATE)
    (h : a.before_data = none ∨ a.after_data = none) (ev : ChangeEvent) :
    a.to_change_event ≠ .ok ev := by
  intro hok
  simp only [AuditLog.to_change_event, ChangeEvent.make] at hok
  split at hok
  · rename_i hvalid
    simp only [ChangeEvent.valid, Bool.and_eq_true] at hvalid
    obtain ⟨-, hcons⟩ := hvalid
    simp only [hop] at hcons
    rcases h with h2 | h2 <;> rw [h2] at hcons <;> simp at hcons
  · exact Except.noConfusion hok

theorem convertLoop_error_of_mem (pj : String → Option RowData)
    (rows : List AuditRow) (r : AuditRow) (last : Int) (hr : r ∈ rows)
    (hbad : ∀ ev, rowConv pj r ≠ .ok ev) :
    ∃ msg, convertLoop pj rows last = .error msg := by
  induction rows generalizing last with
  | nil => cases hr
  | cons x xs ih =>
    rw [convertLoop]
    rcases hx : row_to_audit_log pj x with e | a
    · simp only [hx]
      exact ⟨e, rfl⟩
    · simp only [hx]
      rcases ht : a.to_change_event with e | ev
      · simp only [ht]
        exact ⟨e, rfl⟩
      · simp only [ht]
        rcases List.mem_cons.mp hr with he | hr2
        · subst he
          have hcv : rowConv pj r = .ok ev := by
            rw [rowConv, hx]
            exact ht
          exact absurd hcv (hbad ev)
        · obtain ⟨msg, hm⟩ :=
            ih (if ev.audit_id > last then ev.audit_id else last) hr2
          simp only [hm]
          exact ⟨msg, rfl⟩

/-- C5, amended: a malformed JSON payload is tolerated — deserialized to NULL
without failing the batch — exactly when the payload is not mandatory for the
row's operation: the `before_data` of an INSERT and the `after_data` of a
DELETE become NULL and the row still converts.  A malformed payload the
operation requires is fatal: for INSERT's `after_data` and DELETE's
`before_data` the `AuditLog` validator raises inside `_row_to_audit_log`,
and for either payload of an UPDATE the conversion fails one step later, at
`to_change_event` (the `ChangeEvent` validator); in every fatal case the
row's conversion cannot produce an event, and any such row inside a fetched
batch fails the whole `fetch_batch` call. -/
theorem malformed_json_amended (pj : String → Option RowData) :
    (∀ r sb sa d, r.operation = .INSERT → r.before_data = some sb → sb ≠ "" →
      pj sb = none → r.after_data = some sa → sa ≠ "" → pj sa = some d →
      0 ≤ r.retry_count →
      row_to_audit_log pj r = .ok (AuditLog.mk r.id r.table_name r.operation
        r.row_id none (some d) r.created_at none r.retry_count)) ∧
    (∀ r sb sa d, r.operation = .DELETE → r.before_data = some sb → sb ≠ "" →
      pj sb = some d → r.after_data = some sa → sa ≠ "" → pj sa = none →
      0 ≤ r.retry_count →
      row_to_audit_log pj r = .ok (AuditLog.mk r.id r.table_name r.operation
        r.row_id (some d) none r.created_at none r.retry_count)) ∧
    (∀ r sa, r.operation = .INSERT → r.after_data = some sa → sa ≠ "" →
      pj sa = none →
      row_to_audit_log pj r = .error "ValidationError" ∧
      ∀ ev, rowConv pj r ≠ .ok ev) ∧
    (∀ r sb, r.operation = .DELETE → r.before_data = some sb → sb ≠ "" →
      pj sb = none →
      row_to_audit_log pj r = .error "ValidationError" ∧
      ∀ ev, rowConv pj r ≠ .ok ev) ∧
    (∀ r sb, r.operation = .UPDATE → r.before_data = some sb → sb ≠ "" →
      pj sb = none → ∀ ev, rowConv pj r ≠ .ok ev) ∧
    (∀ r sa, r.operation = .UPDATE → r.after_data = some sa → sa ≠ "" →
      pj sa = none → ∀ ev, rowConv pj r ≠ .ok ev) ∧
    (∀ st table r, st.running = true →
      r ∈ fetchUnconsumed table st.last_audit_id st.batch_size →
      (∀ ev, rowConv pj r ≠ .ok ev) →
      ∃ msg, fetch_batch pj st table = .error msg) := by
  refine ⟨?_, ?_, ?_, ?_, ?_, ?_, ?_⟩
  · intro r sb sa d hop hb hbne hpj ha hane hpd hrc
    have hvalid : (AuditLog.mk r.id r.table_name r.operation r.row_id none
        (some d) r.created_at none r.retry_count).valid = true := by
      simp only [AuditLog.valid, Bool.and_eq_true, decide_eq_true_eq]
      refine ⟨hrc, ?_⟩
      rw [hop]
      rfl
    simp only [row_to_audit_log, hb, ha]
    rw [if_neg hbne, if_neg hane, hpj, hpd]
    simp only [AuditLog.make]
    rw [if_pos hvalid]
  · intro r sb sa d hop hb hbne hpd ha hane hpj hrc
    have hvalid : (AuditLog.mk r.id r.table_name r.operation r.row_id (some d)
        none r.created_at none r.retry_count).valid = true := by
      simp only [AuditLog.valid, Bool.and_eq_true, decide_eq_true_eq]
      refine ⟨hrc, ?_⟩
      rw [hop]
      rfl
    simp only [row_to_audit_log, hb, ha]
    rw [if_neg hbne, if_neg hane, hpd, hpj]
    simp only [AuditLog.make]
    rw [if_pos hvalid]
  · intro r sa hop ha hane hpj
    have herr : row_to_audit_log pj r = .error "ValidationError" := by
      simp only [row_to_audit_log, ha]
      rw [if_neg hane, hpj]
      have hvalid : (AuditLog.mk r.id r.table_name r.operation r.row_id
          (match r.before_data with
           | none => none
           | some s => if s = "" then none else pj s)
          none r.created_at none r.retry_count).valid = false := by
        simp only [AuditLog.valid]
        rw [hop]
        simp
      simp only [AuditLog.make]
      rw [if_neg (by simp [hvalid])]
    refine ⟨herr, ?_⟩
    intro ev hok
    rw [rowConv, herr] at hok
    exact Except.noConfusion hok
  · intro r sb hop hb hbne hpj
    have herr : row_to_audit_log pj r = .error "ValidationError" := by
      simp only [row_to_audit_log, hb]
      rw [if_neg hbne, hpj]
      have hvalid : (AuditLog.mk r.id r.table_name r.operation r.row_id none
          (match r.after_data with
           | none => none
           | some s => if s = "" then none else pj s)
          r.created_at none r.retry_count).valid = false := by
        simp only [AuditLog.valid]
        rw [hop]
        simp
      simp only [AuditLog.make]
      rw [if_neg (by simp [hvalid])]
    refine ⟨herr, ?_⟩
    intro ev hok
    rw [rowConv, herr] at hok
    exact Except.noConfusion hok
  · intro r sb hop hb hbne hpj ev hok
    rw [rowConv] at hok
    rcases hx : row_to_audit_log pj r with e | a
    · rw [hx] at hok
      exact Except.noConfusion hok
    · rw [hx] at hok
      have ha := row_to_audit_log_ok_eq pj r a hx
      subst ha
      have hbnone : (match r.before_data with
          | none => none
          | some s => if s = "" then none else pj s) = (none : Option RowData) := by
        simp only [hb]
        rw [if_neg hbne]
        exact hpj
      exact absurd hok (to_change_event_update_missing _ hop (Or.inl hbnone) ev)
  · intro r sa hop ha hane hpj ev hok
    rw [rowConv] at hok
    rcases hx : row_to_audit_log pj r with e | a
    · rw [hx] at hok
      exact Except.noConfusion hok
    · rw [hx] at hok
      have ha2 := row_to_audit_log_ok_eq pj r a hx
      subst ha2
      have hanone : (match r.after_data with
          | none => none
          | some s => if s = "" then none else pj s) = (none : Option RowData) := by
        simp only [ha]
        rw [if_neg hane]
        exact hpj
      exact absurd hok (to_change_event_update_missing _ hop (Or.inr hanone) ev)
  · intro st table r hrun hr hbad
    obtain ⟨msg, hm⟩ := convertLoop_error_of_mem pj
      (fetchUnconsumed table st.last_audit_id st.batch_size) r
      st.last_audit_id hr hbad
    refine ⟨msg, ?_⟩
    have hne : ¬(fetchUnconsumed table st.last_audit_id st.batch_size = []) := by
      intro h0
      rw [h0] at hr
      cases hr
    simp only [fetch_batch]
    rw [if_neg (by simp [hrun]), if_neg hne]
    simp only [hm]

/-- An INSERT row whose mandatory `after_data` payload is malformed JSON. -/
def badRow : AuditRow :=
  { id := 1, table_name := "t", operation := .INSERT, row_id := some "1",
    before_data := none, after_data := some "not json", created_at := 0,
    consumed_at := none, retry_count := 0 }

/-- A second, well-formed row in the same batch. -/
def goodRow : AuditRow :=
  { id := 2, table_name := "t", operation := .INSERT, row_id := some "8",
    before_data := none, after_data := some "v", created_at := 0,
    consumed_at := none, retry_count := 0 }

/-- The reader state of the C5 counterexample. -/
def stC : ReaderState := { running := true, last_audit_id := 0, batch_size := 100 }

/-- C5, counterexample: a batch containing a row whose `after_data` is
malformed JSON (operation INSERT) makes `fetch_batch` raise — the row is not
converted with a NULL payload, and the other, well-formed row of the batch is
not yielded either. -/
theorem malformed_json_counterexample :
    pjW "not json" = none ∧
    fetch_batch pjW stC [badRow, goodRow] = .error "ValidationError" :=
  ⟨rfl, rfl⟩

/-- An INSERT row whose optional `before_data` payload is malformed JSON
while the mandatory `after_data` parses. -/
def badBeforeRow : AuditRow :=
  { id := 3, table_name := "t", operation := .INSERT, row_id := some "9",
    before_data := some "not json", after_data := some "v", created_at := 0,
    consumed_at := none, retry_count := 0 }

/-- Witness for the amended C5 theorem: the malformed non-mandatory payload
becomes NULL and the row still converts. -/
theorem malformed_json_amended_witness :
    row_to_audit_log pjW badBeforeRow
      = .ok (AuditLog.mk 3 "t" .INSERT (some "9") none (some [("k", "v")]) 0 none 0) :=
  (malformed_json_amended pjW).1 badBeforeRow "not json" "v" [("k", "v")]
    rfl rfl (by decide) rfl rfl (by decide) rfl (by decide)

/-! ## Sync engine (`core/engine.py`)

The engine is embedded as a state machine over an explicit run record.
Targets are abstracted by name plus success predicates for `batch_upsert`
and `delete` (the network writers are external); the transformer is carried
as a function parameter; the checkpoint store keeps only `last_audit_id`
per target (the other `SyncPosition` fields are carried by the code but
never read back by the engine). -/

/-- `CheckpointStore.load_position`: the stored cursor of a target, or the
zero-valued default when absent. -/
def storeGet : List (String × Int) → String → Int
  | [], _ => 0
  | (k, v) :: rest, t => if k = t then v else storeGet rest t

/-- `CheckpointStore.save_position`: `INSERT OR REPLACE` keyed on the
target. -/
def storeSet : List (String × Int) → String → Int → List (String × Int)
  | [], t, v => [(t, v)]
  | (k, w) :: rest, t, v =>
    if k = t then (t, v) :: rest else (k, w) :: storeSet rest t v

/-- Python `min` over a nonempty list (`0` for the guarded-empty case). -/
def minOfList : List Int → Int
  | [] => 0
  | x :: xs => xs.foldl (fun m v => if v < m then v else m) x

/-- Python `max` over a nonempty list (`0` for the guarded-empty case). -/
def maxOfList : List Int → Int
  | [] => 0
  | x :: xs => xs.foldl (fun m v => if v > m then v else m) x

/-- `SyncConfig.get_table_mapping`: first mapping whose `source_table`
matches, yielding its `target_table`. -/
def lookupMapping : List (String × String) → String → Option String
  | [], _ => none
  | (s, t) :: rest, tbl => if s = tbl then some t else lookupMapping rest tbl

/-- The engine-level configuration: target names, table mappings
(`source_table → target_table`), batch size, the abstracted per-target
writer outcomes (`upsertOk t tbl` / `deleteOk t tbl` tell whether the call
raises), the transformer, and the JSON parser of the reader. -/
structure EngineConfig where
  targets : List String
  mappings : List (String × String)
  batch_size : Nat
  upsertOk : String → String → Bool
  deleteOk : String → String → Bool
  transform : String → RowData → RowData
  parseJson : String → Option RowData

/-- Observable state of one engine run: checkpoint-store contents, the
chronological `save_position` log, recorded errors (`status.record_error`),
the ids passed to `mark_consumed`, the attempted target applications
`(target, table, succeeded)`, the event counter, and the reader state. -/
structure EngineRun where
  store : List (String × Int)
  saved : List (String × Int)
  errors : List String
  marked : List Int
  applied : List (String × String × Bool)
  totalEvents : Int
  reader : ReaderState
deriving DecidableEq, Repr

/-- `SyncEngine._process_table_events`: look up the mapping (no mapping →
warning and return), transform the non-DELETE events' `after_data` and
`batch_upsert` them to every target, then `delete` per DELETE event on every
target.  Both fan-outs use `asyncio.gather(..., return_exceptions=True)` and
the results are discarded: a raising target neither records an error nor
aborts anything, which the trace captures as `(target, table, false)`. -/
def processTableEvents (cfg : EngineConfig) (tbl : String)
    (evs : List ChangeEvent) : List (String × String × Bool) :=
  match lookupMapping cfg.mappings tbl with
  | none => []
  | some target_table =>
    let rows := (evs.filter fun e => e.operation ≠ OperationType.DELETE).map
      (fun e => cfg.transform tbl (e.after_data.getD []))
    let upserts :=
      if rows = [] then []
      else cfg.targets.map fun t => (t, target_table, cfg.upsertOk t target_table)
    let deletes := (evs.filter fun e => e.operation = OperationType.DELETE).foldl
      (fun acc _e =>
        acc ++ cfg.targets.map fun t => (t, target_table, cfg.deleteOk t target_table)) []
    upserts ++ deletes

/-- Grouping of a batch by table preserving first-occurrence order
(`dict.setdefault` in `_process_events`). -/
def addToGroups (groups : List (String × List ChangeEvent)) (e : ChangeEvent) :
    List (String × List ChangeEvent) :=
  match groups with
  | [] => [(e.table_name, [e])]
  | (t, es) :: rest =>
    if t = e.table_name then (t, es ++ [e]) :: rest
    else (t, es) :: addToGroups rest e

/-- `_process_events`: group by table. -/
def groupByTable (events : List ChangeEvent) : List (String × List ChangeEvent) :=
  events.foldl addToGroups []

/-- `SyncEngine._save_checkpoints`: one `save_position` per target, all set
to the same batch maximum. -/
def savePositionsAll : List String → Int → EngineRun → EngineRun
  | [], _, run => run
  | t :: ts, mid, run =>
    savePositionsAll ts mid
      { run with store := storeSet run.store t mid, saved := run.saved ++ [(t, mid)] }

/-- One iteration of the consume loop in `_run_incremental_sync`: fetch a
batch (an exception lands in the `except` branch, which records the error
and sleeps); process the groups and extend `consumed_ids`; when
`consumed_ids` is nonempty, `_save_checkpoints` writes `max(consumed_ids)`
for every target.  `mark_consumed` does not appear in the loop. -/
def engineStep (cfg : EngineConfig) (table : List AuditRow) (run : EngineRun) :
    EngineRun :=
  match fetch_batch cfg.parseJson run.reader table with
  | .error e => { run with errors := run.errors ++ [e] }
  | .ok (events, reader2) =>
    if events = [] then { run with reader := reader2 }
    else
      let groups := groupByTable events
      let applied := groups.foldl
        (fun acc g => acc ++ processTableEvents cfg g.fst g.snd) []
      let consumed := groups.foldl
        (fun acc g => acc ++ g.snd.map fun e => e.audit_id) []
      let run2 := { run with
        reader := reader2,
        applied := run.applied ++ applied,
        totalEvents := run.totalEvents + events.length }
      if consumed = [] then run2
      else savePositionsAll cfg.targets (maxOfList consumed) run2

/-- The consume loop, observed for a given number of iterations. -/
def engineLoop (cfg : EngineConfig) (table : List AuditRow) :
    Nat → EngineRun → EngineRun
  | 0, run => run
  | n + 1, run => engineLoop cfg table n (engineStep cfg table run)

/-- `SyncEngine._run_incremental_sync`: load every target's position, start
streaming at the minimum (`0` with no targets), run the consume loop. -/
def runIncrementalSync (cfg : EngineConfig) (store0 : List (String × Int))
    (table : List AuditRow) (steps : Nat) : EngineRun :=
  let startPositions := cfg.targets.map fun t => storeGet store0 t
  let startId := if startPositions = [] then 0 else minOfList startPositions
  engineLoop cfg table steps
    { store := store0, saved := [], errors := [], marked := [], applied := [],
      totalEvents := 0,
      reader := { running := true, last_audit_id := startId,
                  batch_size := cfg.batch_size } }

/-! ### Engine lemmas and claim theorems -/

theorem savePositionsAll_marked (ts : List String) (mid : Int) (run : EngineRun) :
    (savePositionsAll ts mid run).marked = run.marked := by
  induction ts generalizing run with
  | nil => rfl
  | cons t ts ih => rw [savePositionsAll]; rw [ih]

theorem engineStep_marked (cfg : EngineConfig) (table : List AuditRow)
    (run : EngineRun) : (engineStep cfg table run).marked = run.marked := by
  rw [engineStep]
  rcases h : fetch_batch cfg.parseJson run.reader table with e | p
  · rfl
  · obtain ⟨events, reader2⟩ := p
    by_cases he : events = []
    · simp [he]
    · simp only [he, if_neg, ite_false]
      by_cases hc : (groupByTable events).foldl
          (fun acc g => acc ++ g.snd.map fun e => e.audit_id) [] = []
      · simp [hc]
      · simp only [hc, if_neg, ite_false]
        rw [savePositionsAll_marked]

theorem engineLoop_marked (cfg : EngineConfig) (table : List AuditRow)
    (n : Nat) (run : EngineRun) :
    (engineLoop cfg table n run).marked = run.marked := by
  induction n generalizing run with
  | zero => rfl
  | succ n ih => rw [engineLoop, ih, engineStep_marked]

/-- The audit row used by the engine claim instances. -/
def engRow1 : AuditRow :=
  { id := 1, table_name := "t", operation := .INSERT, row_id := some "1",
    before_data := none, after_data := some "v", created_at := 0,
    consumed_at := none, retry_count := 0 }

/-- A second audit row of the same table. -/
def engRow2 : AuditRow :=
  { id := 2, table_name := "t", operation := .INSERT, row_id := some "2",
    before_data := none, after_data := some "w", created_at := 0,
    consumed_at := none, retry_count := 0 }

/-- Engine configuration with two targets where B's `batch_upsert` raises. -/
def cfgAB : EngineConfig :=
  { targets := ["A", "B"], mappings := [("t", "t")], batch_size := 100,
    upsertOk := fun t _ => t = "A", deleteOk := fun _ _ => true,
    transform := fun _ row => row, parseJson := pjW }

/-- The C1 scenario: empty checkpoint store, one-row batch, target B fails. -/
def engineRunC1 : EngineRun := runIncrementalSync cfgAB [] [engRow1] 1

/-- C1 (code bug): target A succeeds and target B raises on the batch, yet
the engine records no error and saves B's cursor at the batch maximum just
like A's — `_process_table_events` discards the
`asyncio.gather(..., return_exceptions=True)` results and
`_save_checkpoints` advances every target unconditionally. -/
theorem failed_target_cursor_advances :
    engineRunC1.applied = [("A", "t", true), ("B", "t", false)] ∧
    engineRunC1.errors = [] ∧
    engineRunC1.saved = [("A", 1), ("B", 1)] ∧
    storeGet engineRunC1.store "B" = 1 := by decide

/-- Engine configuration with one always-succeeding target. -/
def cfgA : EngineConfig :=
  { targets := ["A"], mappings := [("t", "t")], batch_size := 100,
    upsertOk := fun _ _ => true, deleteOk := fun _ _ => true,
    transform := fun _ row => row, parseJson := pjW }

/-- The C2 scenario: one target, a two-row batch, everything succeeds. -/
def engineRunC2 : EngineRun := runIncrementalSync cfgA [] [engRow1, engRow2] 1

/-- C2 (code bug): the consume loop never invokes `mark_consumed` — in every
run the set of ids marked consumed stays empty — even though the batch
completed for all targets and the checkpoints were saved. -/
theorem mark_consumed_never_invoked :
    (∀ cfg store0 table steps,
      (runIncrementalSync cfg store0 table steps).marked = []) ∧
    engineRunC2.saved = [("A", 2)] ∧
    engineRunC2.errors = [] ∧
    engineRunC2.marked = [] := by
  refine ⟨?_, by decide, by decide, by decide⟩
  intro cfg store0 table steps
  rw [runIncrementalSync, engineLoop_marked]

/-- The C3 store: target A is ahead at cursor 10, target B at 0. -/
def storeC3 : List (String × Int) := [("A", 10), ("B", 0)]

/-- Engine configuration with two always-succeeding targets. -/
def cfgAB2 : EngineConfig :=
  { targets := ["A", "B"], mappings := [("t", "t")], batch_size := 100,
    upsertOk := fun _ _ => true, deleteOk := fun _ _ => true,
    transform := fun _ row => row, parseJson := pjW }

/-- The C3 scenario: unequal stored cursors, streaming starts at the
minimum, first batch holds ids 1 and 2. -/
def engineRunC3 : EngineRun := runIncrementalSync cfgAB2 storeC3 [engRow1, engRow2] 1

/-- C3 (code bug): with A stored at 10 and B at 0, the stream starts at the
minimum and the first `_save_checkpoints` writes 2 for A — a `save_position`
strictly below A's previously stored value, so `last_audit_id` per
(source, target) is not non-decreasing. -/
theorem checkpoint_monotonicity_violated :
    storeGet storeC3 "A" = 10 ∧
    ("A", 2) ∈ engineRunC3.saved ∧
    storeGet engineRunC3.store "A" = 2 ∧
    (2 : Int) < 10 := by decide

/-! ## Capture connection (`core/connection.py`)

`CDCConnection.execute` / `_execute_with_audit` are embedded with the
database's responses to the issued statements supplied as an environment:
the before-image SELECT, the business statement, the after-image SELECT and
the audit INSERT each either return a value or raise.  The pure
`_extract_where_clause` / sql-scanning fallback of `_extract_row_id_from_where`
only shape which query is issued and what the fallback row id is; they are
carried as the `rowIdFallback` field. -/

/-- The `parameters` argument of `execute` (`Union[tuple, dict, list]` plus
anything else); values are opaque. -/
inductive PyParams where
  | tup (vals : List String)
  | lst (vals : List String)
  | dict (kvs : List (String × String))
  | other
deriving DecidableEq, Repr

/-- `_convert_parameters`: lists/tuples become tuples, a dict becomes the
tuple of its values in iteration order, anything else the empty tuple. -/
def convert_parameters : PyParams → List String
  | .tup vals => vals
  | .lst vals => vals
  | .dict kvs => kvs.map (fun kv => kv.snd)
  | .other => []

/-- Outcomes of the statements `_execute_with_audit` issues. -/
structure ExecEnv where
  beforeFetch : Except Unit (Option RowData)
  execResult : Except Unit (Option Int)
  afterFetch : Except Unit (Option RowData)
  auditInsert : Except Unit Unit
  rowIdFallback : Option String

/-- `_fetch_before_data`: any raised exception is caught, logged at warning,
and turned into `None`. -/
def fetch_before_data (q : Except Unit (Option RowData)) : Option RowData :=
  match q with
  | .error _ => none
  | .ok r => r

/-- `_fetch_after_data`: `None` without querying when there is no row id;
any raised exception is caught, logged at warning, and turned into `None`. -/
def fetch_after_data (row_id : Option String) (q : Except Unit (Option RowData)) :
    Option RowData :=
  match row_id with
  | none => none
  | some _ =>
    match q with
    | .error _ => none
    | .ok r => r

/-- Key lookup in a payload dict. -/
def lookupKey : RowData → String → Option String
  | [], _ => none
  | (k, v) :: rest, key => if k = key then some v else lookupKey rest key

/-- `_extract_row_id_from_where`: `before_data["ROWID"]` when the (truthy)
before image has it, else the sql-derived fallback. -/
def extract_row_id_from_where (before : Option RowData)
    (fallback : Option String) : Option String :=
  match before with
  | none => fallback
  | some d =>
    if d = [] then fallback
    else
      match lookupKey d "ROWID" with
      | some v => some v
      | none => fallback

/-- `_write_audit_log`: logs and re-raises on failure — the exception
propagates unchanged. -/
def write_audit_log (ins : Except Unit Unit) : Except Unit Unit := ins

/-- `json.dumps(x) if x else None`: an absent or empty (falsy) dict is
stored as NULL; serialization itself is content-preserving and modelled as
the identity on the kept dict. -/
def dumpsIfTruthy : Option RowData → Option RowData
  | none => none
  | some d => if d = [] then none else some d

/-- The audit row `_write_audit_log` inserts. -/
structure AuditInsertRec where
  table : String
  operation : OperationType
  row_id : Option String
  before_data : Option RowData
  after_data : Option RowData
deriving DecidableEq, Repr

/-- What one `execute` call did: whether the business statement ran, the
positional parameters passed to the underlying connection for it, the
audit row written (none on the pass-through path), and the cursor's
`lastrowid`. -/
structure ExecTrace where
  businessExecuted : Bool
  businessParams : List String
  auditRecord : Option AuditInsertRec
  cursor : Option Int
deriving DecidableEq, Repr

/-- `CDCConnection._execute_with_audit`: convert parameters; fetch the
before image for UPDATE/DELETE; run the business statement (a raise
propagates); derive the row id (INSERT: truthy `lastrowid`); fetch the after
image for INSERT/UPDATE; insert the audit row in the same transaction (a
raise propagates). -/
def execute_with_audit (env : ExecEnv) (operation : OperationType)
    (table_name : String) (parameters : PyParams) : Except Unit ExecTrace :=
  let params := convert_parameters parameters
  let before : Option RowData :=
    match operation with
    | .UPDATE => fetch_before_data env.beforeFetch
    | .DELETE => fetch_before_data env.beforeFetch
    | .INSERT => none
  let row_id0 : Option String :=
    match operation with
    | .UPDATE => extract_row_id_from_where before env.rowIdFallback
    | .DELETE => extract_row_id_from_where before env.rowIdFallback
    | .INSERT => none
  match env.execResult with
  | .error _ => .error ()
  | .ok lastrowid =>
    let row_id : Option String :=
      match operation with
      | .INSERT =>
        match lastrowid with
        | some n => if n ≠ 0 then some (pyStrInt n) else none
        | none => none
      | .UPDATE => row_id0
      | .DELETE => row_id0
    let after : Option RowData :=
      match operation with
      | .INSERT => fetch_after_data row_id env.afterFetch
      | .UPDATE => fetch_after_data row_id env.afterFetch
      | .DELETE => none
    match write_audit_log env.auditInsert with
    | .error _ => .error ()
    | .ok _ =>
      .ok { businessExecuted := true, businessParams := params,
            auditRecord := some
              { table := table_name, operation := operation, row_id := row_id,
                before_data := dumpsIfTruthy before,
                after_data := dumpsIfTruthy after },
            cursor := lastrowid }

/-- `_should_audit`: empty allow-list audits everything. -/
def should_audit (enabled : List String) (table : String) : Bool :=
  if enabled = [] then true else table ∈ enabled

/-- The pass-through path of `execute`:
`self._conn.execute(sql, _convert_parameters(parameters))`. -/
def passThroughExec (env : ExecEnv) (parameters : PyParams) :
    Except Unit ExecTrace :=
  match env.execResult with
  | .error _ => .error ()
  | .ok lastrowid =>
    .ok { businessExecuted := true,
          businessParams := convert_parameters parameters,
          auditRecord := none, cursor := lastrowid }

/-- `CDCConnection.execute`: classify (`opTable` is the `parse_sql` result),
audit when classified and allow-listed, else pass through. -/
def CDCConnection.execute (enabled : List String)
    (opTable : Option (OperationType × String)) (parameters : PyParams)
    (env : ExecEnv) : Except Unit ExecTrace :=
  match opTable with
  | some (op, tbl) =>
    if should_audit enabled tbl then execute_with_audit env op tbl parameters
    else passThroughExec env parameters
  | none => passThroughExec env parameters

/-- C6 (confirmed): during an audited write, a failing audit-row INSERT
propagates to the caller as an error, while a failing before-image or
after-image fetch does not: the business statement still executes and the
audit row is written with NULL for the payload that could not be fetched. -/
theorem audit_error_propagation (env : ExecEnv) (op : OperationType)
    (tbl : String) (params : PyParams) :
    (∀ lr, env.execResult = .ok lr → env.auditInsert = .error () →
      execute_with_audit env op tbl params = .error ()) ∧
    (∀ lr, (op = .UPDATE ∨ op = .DELETE) → env.beforeFetch = .error () →
      env.execResult = .ok lr → env.auditInsert = .ok () →
      ∃ t rec, execute_with_audit env op tbl params = .ok t ∧
        t.businessExecuted = true ∧ t.auditRecord = some rec ∧
        rec.before_data = none) ∧
    (∀ lr, (op = .INSERT ∨ op = .UPDATE) → env.afterFetch = .error () →
      env.execResult = .ok lr → env.auditInsert = .ok () →
      ∃ t rec, execute_with_audit env op tbl params = .ok t ∧
        t.businessExecuted = true ∧ t.auditRecord = some rec ∧
        rec.after_data = none) := by
  refine ⟨?_, ?_, ?_⟩
  · intro lr hexec hins
    rw [execute_with_audit.eq_def]
    simp only [hexec, hins, write_audit_log]
  · intro lr hop hbf hexec hins
    rw [execute_with_audit.eq_def]
    simp only [hexec, hins, write_audit_log]
    rcases hop with rfl | rfl
    · exact ⟨_, _, rfl, rfl, rfl, by simp [hbf, fetch_before_data, dumpsIfTruthy]⟩
    · exact ⟨_, _, rfl, rfl, rfl, by simp [hbf, fetch_before_data, dumpsIfTruthy]⟩
  · intro lr hop haf hexec hins
    rw [execute_with_audit.eq_def]
    simp only [hexec, hins, write_audit_log]
    rcases hop with rfl | rfl
    · refine ⟨_, _, rfl, rfl, rfl, ?_⟩
      simp only [haf, fetch_after_data]
      cases lr with
      | none => rfl
      | some n =>
        by_cases hn : n ≠ 0
        · simp [hn, dumpsIfTruthy]
        · simp [hn, dumpsIfTruthy]
    · refine ⟨_, _, rfl, rfl, rfl, ?_⟩
      simp only [haf, fetch_after_data]
      cases extract_row_id_from_where (fetch_before_data env.beforeFetch)
          env.rowIdFallback with
      | none => rfl
      | some v => simp [dumpsIfTruthy]

/-- A concrete environment whose audit INSERT raises. -/
def envAuditFail : ExecEnv :=
  { beforeFetch := .ok none, execResult := .ok (some 1),
    afterFetch := .ok (some [("a", "b")]), auditInsert := .error (),
    rowIdFallback := none }

/-- Witness for the C6 propagation theorem at a concrete environment. -/
theorem audit_error_propagation_witness :
    execute_with_audit envAuditFail .INSERT "t" (.tup []) = .error () :=
  (audit_error_propagation envAuditFail .INSERT "t" (.tup [])).1
    (some 1) rfl rfl

/-- C10 (confirmed): `execute` converts a dict of parameters to the
positional tuple of its values in dict iteration order before anything
reaches the underlying connection — never binding by name — and replaces
parameters that are neither tuple, list nor dict by the empty tuple; every
successful `execute`, audited or not, passes exactly
`_convert_parameters(parameters)` to the business statement. -/
theorem execute_converts_parameters :
    (∀ kvs, convert_parameters (.dict kvs) = kvs.map (fun kv => kv.snd)) ∧
    convert_parameters .other = [] ∧
    (∀ vals, convert_parameters (.tup vals) = vals) ∧
    (∀ vals, convert_parameters (.lst vals) = vals) ∧
    (∀ enabled opTable params env t,
      CDCConnection.execute enabled opTable params env = .ok t →
      t.businessParams = convert_parameters params) := by
  refine ⟨fun kvs => rfl, rfl, fun vals => rfl, fun vals => rfl, ?_⟩
  intro enabled opTable params env t h
  have hpass : ∀ t2, passThroughExec env params = .ok t2 →
      t2.businessParams = convert_parameters params := by
    intro t2 h2
    rw [passThroughExec] at h2
    rcases he : env.execResult with u | lr <;> rw [he] at h2
    · exact Except.noConfusion h2
    · injection h2 with h3
      rw [← h3]
  have haud : ∀ op tbl t2, execute_with_audit env op tbl params = .ok t2 →
      t2.businessParams = convert_parameters params := by
    intro op tbl t2 h2
    rw [execute_with_audit.eq_def] at h2
    rcases he : env.execResult with u | lr <;> rw [he] at h2
    · exact Except.noConfusion h2
    · rcases hi : write_audit_log env.auditInsert with u | v <;> rw [hi] at h2
      · exact Except.noConfusion h2
      · injection h2 with h3
        rw [← h3]
  rw [CDCConnection.execute.eq_def] at h
  rcases opTable with _ | ⟨op, tbl⟩
  · exact hpass t h
  · have h2 : (if should_audit enabled tbl = true then
        execute_with_audit env op tbl params
      else passThroughExec env params) = .ok t := h
    by_cases hsa : should_audit enabled tbl = true
    · rw [if_pos hsa] at h2
      exact haud op tbl t h2
    · rw [if_neg hsa] at h2
      exact hpass t h2

/-- A concrete environment where every statement succeeds. -/
def envAuditOk : ExecEnv :=
  { beforeFetch := .ok none, execResult := .ok (some 1),
    afterFetch := .ok (some [("a", "b")]), auditInsert := .ok (),
    rowIdFallback := none }

/-- The trace the dict-parameter `execute` call produces in `envAuditOk`. -/
def traceW : ExecTrace :=
  { businessExecuted := true, businessParams := ["1", "2"],
    auditRecord := some
      { table := "t", operation := .INSERT, row_id := some "1",
        before_data := none, after_data := some [("a", "b")] },
    cursor := some 1 }

/-- Witness for the C10 conversion theorem: a two-entry dict reaches the
underlying connection as the positional tuple of its values. -/
theorem execute_converts_parameters_witness :
    traceW.businessParams = convert_parameters (.dict [("a", "1"), ("b", "2")]) :=
  execute_converts_parameters.2.2.2.2 [] (some (.INSERT, "t"))
    (.dict [("a", "1"), ("b", "2")]) envAuditOk traceW rfl

/-! ## Initial sync (`core/initial_sync.py`)

`sync_table` is embedded over a source table given as a list of rows with an
integer ordering key (the resolved `pk_column` values).  The transformer and
the per-target `batch_upsert` fan-out do not affect which rows are fetched
or counted; `_sync_batch_to_all_targets` re-raises a failing target,
aborting the table — target success is assumed here since the claim
concerns the checkpoint skip and the pagination queries.  The `ValueError`
for a table absent from the mappings precedes everything and is likewise
outside the claim. -/

/-- A source-table row: the resolved primary-key column value and the rest. -/
structure SRow where
  pk : Int
  data : RowData
deriving DecidableEq, Repr

/-- `InitialSync._fetch_batch`:
`SELECT * FROM t [WHERE pk > :last_pk] ORDER BY pk LIMIT :batch_size`. -/
def fetchBatchInitial (table : List SRow) (lastPk : Option Int)
    (batchSize : Nat) : List SRow :=
  match lastPk with
  | none => (sortBy (fun a b => decide (a.pk ≤ b.pk)) table).take batchSize
  | some p =>
    (sortBy (fun a b => decide (a.pk ≤ b.pk))
      (table.filter fun r => decide (p < r.pk))).take batchSize

/-- `models/position.py` `SyncState`. -/
inductive SyncState where
  | idle
  | running
  | paused
  | error
  | completed
deriving DecidableEq, Repr

/-- `InitialSyncCheckpoint` (the fields `sync_table` reads). -/
structure InitCkpt where
  last_pk : Option Int
  total_synced : Nat
  status : SyncState
deriving DecidableEq, Repr

/-- The `while True` pagination loop of `_sync_with_pagination`, with enough
fuel supplied by the caller.  Returns the total row count, the trace of
issued pages as `(bound, rows)` pairs, and the checkpoints persisted every
10 batches as `(last_pk, synced)` pairs. -/
def syncLoop (table : List SRow) (batchSize : Nat) :
    Nat → Option Int → Nat → Nat →
    Nat × List (Option Int × List SRow) × List (Option Int × Nat)
  | 0, _, synced, _ => (synced, [], [])
  | fuel + 1, lastPk, synced, batchNum =>
    let rows := fetchBatchInitial table lastPk batchSize
    if hrows : rows = [] then (synced, [], [])
    else
      let synced2 := synced + rows.length
      let lastPk2 := (rows.getLast hrows).pk
      let rest := syncLoop table batchSize fuel (some lastPk2) synced2 (batchNum + 1)
      let ck := if (batchNum + 1) % 10 = 0 then [(some lastPk2, synced2)] else []
      (rest.1, (lastPk, rows) :: rest.2.1, ck ++ rest.2.2)

/-- `InitialSync.sync_table`: load the checkpoint when resuming; a completed
checkpoint returns its `total_synced` without fetching anything; otherwise
paginate starting from the checkpoint's `last_pk` (or from nothing). -/
def sync_table (table : List SRow) (batchSize : Nat) (ckpt0 : Option InitCkpt)
    (resume : Bool) :
    Nat × List (Option Int × List SRow) × List (Option Int × Nat) :=
  let ckpt := if resume then ckpt0 else none
  match ckpt with
  | some c =>
    if c.status = SyncState.completed then (c.total_synced, [], [])
    else syncLoop table batchSize (table.length + 1) c.last_pk 0 0
  | none => syncLoop table batchSize (table.length + 1) none 0 0

theorem fetchBatchInitial_length (table : List SRow) (lastPk : Option Int)
    (batchSize : Nat) : (fetchBatchInitial table lastPk batchSize).length ≤ batchSize := by
  cases lastPk with
  | none => exact List.length_take_le _ _
  | some p => exact List.length_take_le _ _

theorem syncLoop_pages_spec (table : List SRow) (batchSize : Nat) (fuel : Nat)
    (lastPk : Option Int) (synced batchNum : Nat) :
    (∀ pg0, (syncLoop table batchSize fuel lastPk synced batchNum).2.1.head?
        = some pg0 → pg0.fst = lastPk) ∧
    (∀ b pg, (b, pg) ∈ (syncLoop table batchSize fuel lastPk synced batchNum).2.1 →
      pg = fetchBatchInitial table b batchSize ∧ pg ≠ [] ∧ pg.length ≤ batchSize) ∧
    List.Chain' (fun p q => q.fst = p.snd.getLast?.map (fun r => r.pk))
      (syncLoop table batchSize fuel lastPk synced batchNum).2.1 := by
  induction fuel generalizing lastPk synced batchNum with
  | zero => simp [syncLoop]
  | succ fuel ih =>
    rw [syncLoop]
    by_cases hrows : fetchBatchInitial table lastPk batchSize = []
    · simp [hrows]
    · simp only [hrows, dif_neg, dite_false]
      obtain ⟨ih1, ih2, ih3⟩ := ih
        (some ((fetchBatchInitial table lastPk batchSize).getLast hrows).pk)
        (synced + (fetchBatchInitial table lastPk batchSize).length)
        (batchNum + 1)
      refine ⟨?_, ?_, ?_⟩
      · intro pg0 hpg0
        simp only [List.head?_cons, Option.some.injEq] at hpg0
        rw [← hpg0]
      · intro b pg hmem
        rcases List.mem_cons.mp hmem with he | hmem2
        · injection he with he1 he2
          subst he1; subst he2
          exact ⟨rfl, hrows, fetchBatchInitial_length table b batchSize⟩
        · exact ih2 b pg hmem2
      · rw [List.chain'_cons']
        refine ⟨?_, ih3⟩
        intro q hq
        have := ih1 q hq
        rw [this]
        simp only [List.getLast?_eq_getLast _ hrows, Option.map_some']

/-- C9, theorem (confirmed): `sync_table(table, resume := true)` returns the
stored checkpoint's `total_synced` and fetches nothing when that checkpoint
is completed; otherwise it copies by keyset pagination — the first issued
page carries the checkpoint's `last_pk` as its bound (no predicate when
starting fresh), every page equals
`SELECT * FROM t [WHERE pk > bound] ORDER BY pk LIMIT batch_size` for its
bound, pages are nonempty and capped at `batch_size`, and each subsequent
page's bound is the previous page's last primary key. -/
theorem sync_table_spec (table : List SRow) (batchSize : Nat)
    (ckpt0 : Option InitCkpt) (c : InitCkpt) :
    (ckpt0 = some c → c.status = SyncState.completed →
      sync_table table batchSize ckpt0 true = (c.total_synced, [], [])) ∧
    (∀ n pages ckpts, sync_table table batchSize ckpt0 true = (n, pages, ckpts) →
      (∀ pg0, pages.head? = some pg0 →
        pg0.fst = (match ckpt0 with
          | some c2 => c2.last_pk
          | none => none)) ∧
      (∀ b pg, (b, pg) ∈ pages →
        pg = fetchBatchInitial table b batchSize ∧ pg ≠ [] ∧
        pg.length ≤ batchSize) ∧
      List.Chain' (fun p q => q.fst = p.snd.getLast?.map (fun r => r.pk)) pages) := by
  constructor
  · intro h0 hc
    rw [sync_table]
    simp only [if_true, h0, hc]
  · intro n pages ckpts hrun
    rw [sync_table] at hrun
    simp only [if_true] at hrun
    rcases hck : ckpt0 with _ | c2
    · rw [hck] at hrun
      have hrun2 : syncLoop table batchSize (table.length + 1) none 0 0
          = (n, pages, ckpts) := hrun
      obtain ⟨s1, s2, s3⟩ :=
        syncLoop_pages_spec table batchSize (table.length + 1) none 0 0
      have hpg : pages = (syncLoop table batchSize (table.length + 1) none 0 0).2.1 := by
        rw [hrun2]
      subst hpg
      exact ⟨fun pg0 h => s1 pg0 h, s2, s3⟩
    · rw [hck] at hrun
      have hrun2 : (if c2.status = SyncState.completed then
            ((c2.total_synced, [], []) :
              Nat × List (Option Int × List SRow) × List (Option Int × Nat))
          else syncLoop table batchSize (table.length + 1) c2.last_pk 0 0)
          = (n, pages, ckpts) := hrun
      by_cases hcs : c2.status = SyncState.completed
      · rw [if_pos hcs] at hrun2
        have hpg : pages = [] := by
          injection hrun2 with h1 h2
          injection h2 with h3 h4
          exact h3.symm
        subst hpg
        refine ⟨?_, ?_, ?_⟩
        · intro pg0 h
          exact absurd h (by simp)
        · intro b pg h
          exact absurd h (by simp)
        · simp
      · rw [if_neg hcs] at hrun2
        obtain ⟨s1, s2, s3⟩ :=
          syncLoop_pages_spec table batchSize (table.length + 1) c2.last_pk 0 0
        have hpg : pages =
            (syncLoop table batchSize (table.length + 1) c2.last_pk 0 0).2.1 := by
          rw [hrun2]
        subst hpg
        exact ⟨fun pg0 h => s1 pg0 h, s2, s3⟩

/-- A two-row source table. -/
def tableW : List SRow := [⟨1, [("a", "x")]⟩, ⟨2, [("a", "y")]⟩]

/-- A completed checkpoint with 42 rows recorded. -/
def ckptDone : InitCkpt := { last_pk := some 2, total_synced := 42,
                             status := SyncState.completed }

/-- Witness for the C9 theorem: a completed checkpoint short-circuits
`sync_table` to its recorded total with no pages fetched. -/
theorem sync_table_spec_witness :
    sync_table tableW 1 (some ckptDone) true = (ckptDone.total_synced, [], []) :=
  (sync_table_spec tableW 1 (some ckptDone) ckptDone).1 rfl rfl

end SqliteCdc
